import Mathlib

/-!
Shallow embedding of `scripts/remove_backup_seeds.py` (the seed-name decomposition and
pairwise backup-relationship classifier) and proofs about the claims of the specification.

Seed names are modelled as `List Char` (`Chars`).  Python string primitives
(`str.replace`, `str.split`, `in`, `startswith`, `endswith`, slicing) are modelled by
executable list functions below, faithful to Python's leftmost, non-overlapping
semantics.  The regular-expression searches of the source are specialised, for each
of the concrete patterns the source uses, into direct backtracking-free scanners;
comments at each scanner justify the equivalence with the Python regex semantics
(greedy `\d+`, lazy `(_*?)`, ordered alternation).

Python `float` values are modelled by `PyVal` (an exact rational, plus the infinities
and NaN produced by `float('inf')` / `float('nan')`).  Decimal literals are represented
exactly; IEEE-754 double rounding is order-preserving and injective on the short
decimal literals that occur in seed names, so strict/non-strict comparisons agree with
the exact rational comparisons used here.

Two deliberate modelling reductions: Python's `\d` and `str.lower` operate on full
Unicode, modelled here by the ASCII `Char.isDigit` / `Char.toLower` (seed names are
ASCII); and Python's `float` also strips a few exotic Unicode space characters, modelled
by `Char.isWhitespace`.
-/

namespace PSTools

abbrev Chars := List Char

/-- Model of Python `str.lower` (ASCII, which is all that seed names use). -/
def lowerChars (l : Chars) : Chars := l.map Char.toLower

/-- Model of Python `sub in s`: does `pat` occur as a contiguous substring of `l`? -/
def hasOccur (pat : Chars) : Chars → Bool
  | [] => pat.isEmpty
  | c :: rest => pat.isPrefixOf (c :: rest) || hasOccur pat rest

/-- Worker for `replaceAll`; `fuel` bounds the recursion (list length suffices since a
nonempty pattern consumes at least one character per step). -/
def replaceAllGo (pat rep : Chars) : Nat → Chars → Chars
  | _, [] => []
  | 0, l => l
  | fuel + 1, c :: rest =>
    if pat ≠ [] ∧ pat.isPrefixOf (c :: rest) then
      rep ++ replaceAllGo pat rep fuel ((c :: rest).drop pat.length)
    else
      c :: replaceAllGo pat rep fuel rest

/-- Model of Python `l.replace(pat, rep)`: replace every leftmost, non-overlapping
occurrence.  (The source never calls `replace` with an empty pattern.) -/
def replaceAll (l pat rep : Chars) : Chars := replaceAllGo pat rep l.length l

/-- Worker for `splitOnSub`. -/
def splitSubGo (pat : Chars) : Nat → Chars → Chars → List Chars
  | _, [], acc => [acc]
  | 0, l, acc => [acc ++ l]
  | fuel + 1, c :: rest, acc =>
    if pat ≠ [] ∧ pat.isPrefixOf (c :: rest) then
      acc :: splitSubGo pat fuel ((c :: rest).drop pat.length) []
    else
      splitSubGo pat fuel rest (acc ++ [c])

/-- Model of Python `l.split(pat)` for a nonempty separator. -/
def splitOnSub (l pat : Chars) : List Chars := splitSubGo pat l.length l []

/-- Model of the idiom `if s.endswith('_'): s = s[:-1]` used by the mass and
isolation criteria. -/
def trimUnd (l : Chars) : Chars :=
  if l.getLast? = some '_' then l.dropLast else l

/-! ### Model of Python float values -/

/-- A Python `float` as produced by `float(...)` on the strings this program builds:
an exact rational for finite decimal literals, plus `inf`, `-inf` and `nan`. -/
inductive PyVal where
  | fin (q : ℚ)
  | inf
  | ninf
  | nan
deriving DecidableEq, Repr

/-- Three-way comparison of Python floats; `none` when either side is NaN
(every Python comparison involving NaN is false). -/
def pyCmp : PyVal → PyVal → Option Ordering
  | .nan, _ => none
  | _, .nan => none
  | .fin a, .fin c => some (if a < c then .lt else if a = c then .eq else .gt)
  | .fin _, .inf => some .lt
  | .fin _, .ninf => some .gt
  | .inf, .inf => some .eq
  | .inf, _ => some .gt
  | .ninf, .ninf => some .eq
  | .ninf, _ => some .lt

/-- Python `a < b` on floats. -/
def pyLt (a c : PyVal) : Bool := pyCmp a c == some .lt

/-- Python `a > b` on floats. -/
def pyGt (a c : PyVal) : Bool := pyCmp a c == some .gt

/-- Python `a >= b` on floats. -/
def pyGe (a c : PyVal) : Bool := pyGt a c || pyCmp a c == some .eq

/-- Python `a - b` on floats (only the finite case is ever reached by the source).
The finite difference is written with integer arithmetic and `Rat.divInt` so that
it evaluates inside the kernel; it equals `a - c` (see `pySub_fin`). -/
def pySub : PyVal → PyVal → PyVal
  | .fin a, .fin c =>
    .fin (Rat.divInt (a.num * (c.den : Int) - c.num * (a.den : Int))
      ((a.den : Int) * (c.den : Int)))
  | .nan, _ => .nan
  | _, .nan => .nan
  | .inf, .inf => .nan
  | .inf, _ => .inf
  | .ninf, .ninf => .nan
  | .ninf, _ => .ninf
  | .fin _, .inf => .ninf
  | .fin _, .ninf => .inf

/-- Numeric value of a list of decimal digit characters. -/
def digitsToNat (l : Chars) : Nat := l.foldl (fun a c => a * 10 + (c.toNat - 48)) 0

/-- Strip leading and trailing whitespace, as Python `float` does on its argument. -/
def stripWs (l : Chars) : Chars :=
  ((l.dropWhile Char.isWhitespace).reverse.dropWhile Char.isWhitespace).reverse

/-- Consume an optional leading sign; returns (isNegative, rest). -/
def splitSign (l : Chars) : Bool × Chars :=
  if l.head? = some '+' then (false, l.tail)
  else if l.head? = some '-' then (true, l.tail)
  else (false, l)

/-- Parse the optional exponent part of a float literal; the whole remainder must
be consumed.  Returns the (signed) decimal exponent. -/
def parseExpOf : Chars → Option Int
  | [] => some 0
  | c :: r =>
    if c = 'e' ∨ c = 'E' then
      let sr : Bool × Chars :=
        match r with
        | '+' :: t => (false, t)
        | '-' :: t => (true, t)
        | t => (false, t)
      let ds := sr.2.takeWhile Char.isDigit
      if ds = [] ∨ sr.2.drop ds.length ≠ [] then none
      else some (if sr.1 then -(digitsToNat ds : Int) else (digitsToNat ds : Int))
    else none

/-- The rational value `±(ip.fp) · 10^e`, assembled from the integer-part digits,
fraction-part digits and exponent of a float literal.  Written with `Nat`/`Int`
arithmetic and `Rat.divInt` only, so that it evaluates inside the kernel. -/
def ratOfParts (neg : Bool) (ip fp : Chars) (e : Int) : ℚ :=
  let n0 : Int := Int.ofNat (digitsToNat ip * 10 ^ fp.length + digitsToNat fp)
  let n : Int := if neg then -n0 else n0
  let d : Int := Int.ofNat (10 ^ fp.length)
  if 0 ≤ e then Rat.divInt (n * Int.ofNat (10 ^ e.toNat)) d
  else Rat.divInt n (d * Int.ofNat (10 ^ (-e).toNat))

/-- The fraction digits of a float literal: the digit run after the decimal
point, where `r` is the remainder following the integer-part digits. -/
def fracPart (r : Chars) : Chars := r.tail.takeWhile Char.isDigit

/-- Parse the digits-and-point part of a float literal (`digits`, `digits.`,
`digits.digits` or `.digits`, each with an optional exponent).  The remainder
after the integer-part digits either starts with a decimal point (fraction
present) or is parsed directly as an exponent part. -/
def parseNumber (neg : Bool) (l : Chars) : Option PyVal :=
  if (l.drop (l.takeWhile Char.isDigit).length).head? = some '.' then
    (if l.takeWhile Char.isDigit = [] ∧ fracPart (l.drop (l.takeWhile Char.isDigit).length) = []
      then none
      else
        (parseExpOf ((l.drop (l.takeWhile Char.isDigit).length).tail.drop
            (fracPart (l.drop (l.takeWhile Char.isDigit).length)).length)).map
          (fun e => PyVal.fin (ratOfParts neg (l.takeWhile Char.isDigit)
            (fracPart (l.drop (l.takeWhile Char.isDigit).length)) e)))
  else if l.takeWhile Char.isDigit = [] then none
  else
    (parseExpOf (l.drop (l.takeWhile Char.isDigit).length)).map
      (fun e => PyVal.fin (ratOfParts neg (l.takeWhile Char.isDigit) [] e))

def infLit : Chars := ['i', 'n', 'f']

def infinityLit : Chars := ['i', 'n', 'f', 'i', 'n', 'i', 't', 'y']

def nanLit : Chars := ['n', 'a', 'n']

/-- Model of Python `float(s)`: `none` exactly when Python raises `ValueError`. -/
def pyFloat? (l0 : Chars) : Option PyVal :=
  if lowerChars (splitSign (stripWs l0)).2 = infLit ∨
      lowerChars (splitSign (stripWs l0)).2 = infinityLit then
    some (if (splitSign (stripWs l0)).1 then PyVal.ninf else PyVal.inf)
  else if lowerChars (splitSign (stripWs l0)).2 = nanLit then some PyVal.nan
  else parseNumber (splitSign (stripWs l0)).1 (splitSign (stripWs l0)).2

/-- Embedding of `convert_to_float`: drop every underscore ("just to be sure"),
substitute `.` for every `p`, then attempt Python float conversion; the `except
ValueError` of the source becomes the `none` result. -/
def convert_to_float (val : Chars) : Option PyVal :=
  pyFloat? ((val.filter (fun c => !(c == '_'))).map (fun c => if c = 'p' then '.' else c))

/-! ### Basename extraction -/

def l1Str : Chars := ['L', '1', '_']

/-- Embedding of `get_seed_basename`: `none` unless the name starts with the `L1_`
family marker; otherwise remove every occurrence of the marker, keep the segment up
to the first `_`, truncate at the first digit, and re-prepend the marker. -/
def get_seed_basename (seed : Chars) : Option Chars :=
  if ¬ l1Str.isPrefixOf seed then none
  else
    let b1 := replaceAll seed l1Str []
    let b2 := b1.takeWhile (fun c => !(c == '_'))
    let b3 := b2.takeWhile (fun c => !c.isDigit)
    some (l1Str ++ b3)

/-! ### Token scanners (specialisations of the source's regex searches)

`numToken` models the regex fragment `(\d+p\d+|\d+)`: greedy digit runs with the
`p`-form preferred.  Because a proper prefix of a maximal digit run is always
followed by another digit, the greedy `\d+` never needs to backtrack, and whenever
the `\d+p\d+` alternative matches but the pattern's continuation fails, the `\d+`
alternative leaves the continuation looking at the `p`, which every continuation in
the source's patterns (`$`, `_`, `t` of `to`) also rejects — so a single preferred
result is faithful. -/

/-- Match `(\d+p\d+|\d+)` at the head of `l`; returns (matched text, rest). -/
def numToken (l : Chars) : Option (Chars × Chars) :=
  let d1 := l.takeWhile Char.isDigit
  if d1 = [] then none
  else
    let r1 := l.drop d1.length
    match r1 with
    | c :: r2 =>
      if c = 'p' then
        let d2 := r2.takeWhile Char.isDigit
        if d2 = [] then some (d1, r1)
        else some (d1 ++ 'p' :: d2, r2.drop d2.length)
      else some (d1, r1)
    | [] => some (d1, r1)

/-- Match a literal followed by `(\d+p\d+|\d+)` at the head of `l` (the shape of the
`er`, `dR_Max` and `dR_Min` patterns). -/
def litNumMatchAt (lit : Chars) (l : Chars) : Option (Chars × Chars) :=
  if lit.isPrefixOf l then
    match numToken (l.drop lit.length) with
    | some (m, rest) => some (lit ++ m, rest)
    | none => none
  else none

def erLit : Chars := ['e', 'r']

def dRMaxLit : Chars := ['d', 'R', '_', 'M', 'a', 'x']

def dRMinLit : Chars := ['d', 'R', '_', 'M', 'i', 'n']

def erMatchAt : Chars → Option (Chars × Chars) := litNumMatchAt erLit

def dRmaxMatchAt : Chars → Option (Chars × Chars) := litNumMatchAt dRMaxLit

def dRminMatchAt : Chars → Option (Chars × Chars) := litNumMatchAt dRMinLit

def isoLit : Chars := ['I', 's', 'o']

def looseIsoLit : Chars := ['L', 'o', 'o', 's', 'e', 'I', 's', 'o']

/-- Match the pattern `Iso|LooseIso` at the head of `l`; the `Iso` alternative is
tried first, exactly as in the source's alternation order. -/
def isoMatchAt (l : Chars) : Option (Chars × Chars) :=
  if isoLit.isPrefixOf l then some (isoLit, l.drop 3)
  else if looseIsoLit.isPrefixOf l then some (looseIsoLit, l.drop 8)
  else none

def massLit : Chars := ['M', 'a', 's', 's']

def toLit : Chars := ['t', 'o']

/-- Match `Mass(_*?)(\d+p\d+|\d+)to(\d+p\d+|\d+)` at the head of `l`.  The lazy
`(_*?)` must stop at the first non-underscore, which has to be a digit; fewer
underscores leave `\d+` looking at `_`, so the full underscore run is the only
viable choice. -/
def massMatchAt (l : Chars) : Option (Chars × Chars) :=
  if massLit.isPrefixOf l then
    let r := l.drop 4
    let us := r.takeWhile (fun c => c == '_')
    let r1 := r.drop us.length
    match numToken r1 with
    | some (m1, r2) =>
      if toLit.isPrefixOf r2 then
        match numToken (r2.drop 2) with
        | some (m2, r3) => some (massLit ++ us ++ m1 ++ toLit ++ m2, r3)
        | none => none
      else none
    | none => none
  else none

/-- Model of `re.findall` for a pattern whose matches always consume at least one
character: scan left to right, resuming after each match (non-overlapping). -/
def scanGo (f : Chars → Option (Chars × Chars)) : Nat → Chars → List Chars
  | _, [] => []
  | 0, _ => []
  | fuel + 1, c :: rest =>
    match f (c :: rest) with
    | some (m, r) => m :: scanGo f fuel r
    | none => scanGo f fuel rest

def erFindAll (l : Chars) : List Chars := scanGo erMatchAt l.length l

def dRmaxFindAll (l : Chars) : List Chars := scanGo dRmaxMatchAt l.length l

def dRminFindAll (l : Chars) : List Chars := scanGo dRminMatchAt l.length l

def massFindAll (l : Chars) : List Chars := scanGo massMatchAt l.length l

def isoFindAll (l : Chars) : List Chars := scanGo isoMatchAt l.length l

/-- Model of `re.search` for a position-wise matcher `f`: leftmost position wins.
The empty-suffix position is also tried (at fuel 0), as Python does. -/
def searchGo {α : Type} (f : Chars → Option α) : Nat → Chars → Option α
  | 0, l => f l
  | fuel + 1, l =>
    match f l with
    | some r => some r
    | none =>
      match l with
      | [] => none
      | _ :: rest => searchGo f fuel rest

/-! ### The four momentum-threshold patterns

Shared shape: `basename (_*?) (\d+p\d+|\d+) TAIL` where the tail alternation is
`($|\_[a-zA-Z]+)` for single seeds, `($|(\_(\d+p\d+|\d+)|\_[a-zA-Z]+))` for double,
and the analogous 2- and 3-number forms for triple and quadruple seeds.  Whenever
an inner number alternative matches but the continuation fails, the fallback
alternative leaves the continuation looking at a digit or a `p`, which the letter
class `[a-zA-Z]+` and the separators `_`/`$` reject as well, so the position fails —
exactly what the encodings below produce. -/

/-- Tail `($|\_[a-zA-Z]+)` of the single-object pattern. -/
def ptTailSingle (r2 : Chars) : Option Chars :=
  match r2 with
  | [] => some []
  | c :: rest =>
    if c = '_' then
      let ls := rest.takeWhile Char.isAlpha
      if ls = [] then none else some ('_' :: ls)
    else none

/-- Tail `($|(\_(\d+p\d+|\d+)|\_[a-zA-Z]+))` of the double-object pattern. -/
def ptTailDouble (r2 : Chars) : Option Chars :=
  match r2 with
  | [] => some []
  | c :: rest =>
    if c = '_' then
      match numToken rest with
      | some (m, _) => some ('_' :: m)
      | none =>
        let ls := rest.takeWhile Char.isAlpha
        if ls = [] then none else some ('_' :: ls)
    else none

/-- The `\_[a-zA-Z]+` fallback of the triple-object tail (group 3 text only). -/
def ptLettersTriple (rest : Chars) : Option (Chars × Option Chars × Option Chars) :=
  let ls := rest.takeWhile Char.isAlpha
  if ls = [] then none else some ('_' :: ls, none, none)

/-- Tail `($|(\_(\d+p\d+|\d+)\_(\d+p\d+|\d+)|\_[a-zA-Z]+))` of the triple-object
pattern; returns (group-3 text, group 5, group 6). -/
def ptTailTriple (r2 : Chars) : Option (Chars × Option Chars × Option Chars) :=
  match r2 with
  | [] => some ([], none, none)
  | c :: rest =>
    if c = '_' then
      match numToken rest with
      | some (m5, r3) =>
        match r3 with
        | c2 :: r4 =>
          if c2 = '_' then
            match numToken r4 with
            | some (m6, _) => some ('_' :: m5 ++ '_' :: m6, some m5, some m6)
            | none => ptLettersTriple rest
          else ptLettersTriple rest
        | [] => ptLettersTriple rest
      | none => ptLettersTriple rest
    else none

/-- The `\_[a-zA-Z]+` fallback of the quadruple-object tail. -/
def ptLettersQuad (rest : Chars) :
    Option (Chars × Option Chars × Option Chars × Option Chars) :=
  let ls := rest.takeWhile Char.isAlpha
  if ls = [] then none else some ('_' :: ls, none, none, none)

/-- Tail of the quadruple-object pattern; returns (group-3 text, groups 5, 6, 7). -/
def ptTailQuad (r2 : Chars) : Option (Chars × Option Chars × Option Chars × Option Chars) :=
  match r2 with
  | [] => some ([], none, none, none)
  | c :: rest =>
    if c = '_' then
      match numToken rest with
      | some (m5, r3) =>
        match r3 with
        | c2 :: r4 =>
          if c2 = '_' then
            match numToken r4 with
            | some (m6, r5) =>
              match r5 with
              | c3 :: r6 =>
                if c3 = '_' then
                  match numToken r6 with
                  | some (m7, _) =>
                    some ('_' :: m5 ++ '_' :: m6 ++ '_' :: m7, some m5, some m6, some m7)
                  | none => ptLettersQuad rest
                else ptLettersQuad rest
              | [] => ptLettersQuad rest
            | none => ptLettersQuad rest
          else ptLettersQuad rest
        | [] => ptLettersQuad rest
      | none => ptLettersQuad rest
    else none

/-- Match the single-object pattern at the head of `l`; returns groups 1, 2, 3. -/
def ptMatchSingleAt (b : Chars) (l : Chars) : Option (Chars × Chars × Chars) :=
  if b.isPrefixOf l then
    let r := l.drop b.length
    let us := r.takeWhile (fun c => c == '_')
    let r1 := r.drop us.length
    match numToken r1 with
    | some (m, r2) =>
      match ptTailSingle r2 with
      | some g3 => some (us, m, g3)
      | none => none
    | none => none
  else none

/-- Match the double-object pattern at the head of `l`; returns groups 1, 2, 3. -/
def ptMatchDoubleAt (b : Chars) (l : Chars) : Option (Chars × Chars × Chars) :=
  if b.isPrefixOf l then
    let r := l.drop b.length
    let us := r.takeWhile (fun c => c == '_')
    let r1 := r.drop us.length
    match numToken r1 with
    | some (m, r2) =>
      match ptTailDouble r2 with
      | some g3 => some (us, m, g3)
      | none => none
    | none => none
  else none

/-- Match the triple-object pattern at the head of `l`; groups 1, 2, 3, 5, 6. -/
def ptMatchTripleAt (b : Chars) (l : Chars) :
    Option (Chars × Chars × Chars × Option Chars × Option Chars) :=
  if b.isPrefixOf l then
    let r := l.drop b.length
    let us := r.takeWhile (fun c => c == '_')
    let r1 := r.drop us.length
    match numToken r1 with
    | some (m, r2) =>
      match ptTailTriple r2 with
      | some (g3, g5, g6) => some (us, m, g3, g5, g6)
      | none => none
    | none => none
  else none

/-- Match the quadruple-object pattern at the head of `l`; groups 1, 2, 3, 5, 6, 7. -/
def ptMatchQuadAt (b : Chars) (l : Chars) :
    Option (Chars × Chars × Chars × Option Chars × Option Chars × Option Chars) :=
  if b.isPrefixOf l then
    let r := l.drop b.length
    let us := r.takeWhile (fun c => c == '_')
    let r1 := r.drop us.length
    match numToken r1 with
    | some (m, r2) =>
      match ptTailQuad r2 with
      | some (g3, g5, g6, g7) => some (us, m, g3, g5, g6, g7)
      | none => none
    | none => none
  else none

def ptSearchSingle (b l : Chars) : Option (Chars × Chars × Chars) :=
  searchGo (ptMatchSingleAt b) l.length l

def ptSearchDouble (b l : Chars) : Option (Chars × Chars × Chars) :=
  searchGo (ptMatchDoubleAt b) l.length l

def ptSearchTriple (b l : Chars) :
    Option (Chars × Chars × Chars × Option Chars × Option Chars) :=
  searchGo (ptMatchTripleAt b) l.length l

def ptSearchQuad (b l : Chars) :
    Option (Chars × Chars × Chars × Option Chars × Option Chars × Option Chars) :=
  searchGo (ptMatchQuadAt b) l.length l

/-! ### Criterion functions

Each embeds the Python function of the same name.  The uniform result type mirrors
the `(bool, str-or-None, str-or-None)` triples of the source. -/

def labelPT : Chars := ['p', 'T']

def labelER : Chars := "eta restriction".toList

def labelDRmax : Chars := "dR_Max".toList

def labelDRmin : Chars := "dR_Min".toList

def labelMass : Chars := "MassXtoY".toList

def labelQuality : Chars := "muon quality".toList

def labelPrescale : Chars := "prescale".toList

def labelIsolation : Chars := "isolation".toList

def doubleLit : Chars := "double".toList

def tripleLit : Chars := "triple".toList

def quadLit : Chars := "quad".toList

def singleMuLit : Chars := "singlemu".toList

def doubleMuLit : Chars := "doublemu".toList

def tripleMuLit : Chars := "triplemu".toList

def quadMuLit : Chars := "quadmu".toList

def sqTok : Chars := "_SQ".toList

def dqTok : Chars := "_DQ".toList

def oqTok : Chars := "_OQ".toList

/-- Python type tags relevant to the threshold lists: `float` and `NoneType`. -/
inductive PyTag where
  | float
  | noneT
deriving DecidableEq, Repr

/-- An element of one of the source's `allowed_types` lists.  The double-object
branch of the source writes `[float, None]` — the VALUE `None`, not the type
`type(None)` — so the model keeps values and types apart. -/
inductive PyListElem where
  | ofType (t : PyTag)
  | noneVal
deriving DecidableEq, Repr

/-- `type(t)` for a threshold slot: `float` when present, `NoneType` when absent. -/
def pyElem : Option PyVal → PyListElem
  | some _ => .ofType .float
  | none => .ofType .noneT

/-- `a > b` where either operand may be `None` (only called when both are floats). -/
def optGt (a c : Option PyVal) : Bool :=
  match a, c with
  | some x, some y => pyGt x y
  | _, _ => false

/-- `a >= b` where either operand may be `None` (only called when both are floats). -/
def optGe (a c : Option PyVal) : Bool :=
  match a, c with
  | some x, some y => pyGe x y
  | _, _ => false

/-- Single-object extraction of `criterion_pT`: stripped name and threshold. -/
def pt_extract_single (b s : Chars) : Chars × Option PyVal :=
  match ptSearchSingle b s with
  | some (g1, g2, _g3) => (replaceAll s (b ++ g1 ++ g2) b, convert_to_float g2)
  | none => (s, none)

/-- Double-object extraction: stripped name and the two thresholds.  Note that, as
in the source, only `basename + group(1) + group(2)` is replaced — the second
threshold (group 3) stays in the stripped name. -/
def pt_extract_double (b s : Chars) : Chars × Option PyVal × Option PyVal :=
  match ptSearchDouble b s with
  | some (g1, g2, g3) => (replaceAll s (b ++ g1 ++ g2) b, convert_to_float g2, convert_to_float g3)
  | none => (s, none, none)

/-- Triple-object extraction: the replaced string includes group 3 whenever
`convert_to_float(group(3))` is not `None`. -/
def pt_extract_triple (b s : Chars) :
    Chars × Option PyVal × Option PyVal × Option PyVal :=
  match ptSearchTriple b s with
  | some (g1, g2, g3, g5, g6) =>
    let replaceStr := if (convert_to_float g3).isSome then b ++ g1 ++ g2 ++ g3 else b ++ g1 ++ g2
    (replaceAll s replaceStr b,
      convert_to_float g2,
      (match g5 with | some m => convert_to_float m | none => none),
      (match g6 with | some m => convert_to_float m | none => none))
  | none => (s, none, none, none)

/-- Quadruple-object extraction. -/
def pt_extract_quad (b s : Chars) :
    Chars × Option PyVal × Option PyVal × Option PyVal × Option PyVal :=
  match ptSearchQuad b s with
  | some (g1, g2, g3, g5, g6, g7) =>
    let replaceStr := if (convert_to_float g3).isSome then b ++ g1 ++ g2 ++ g3 else b ++ g1 ++ g2
    (replaceAll s replaceStr b,
      convert_to_float g2,
      (match g5 with | some m => convert_to_float m | none => none),
      (match g6 with | some m => convert_to_float m | none => none),
      (match g7 with | some m => convert_to_float m | none => none))
  | none => (s, none, none, none, none)

/-- Single-object branch of `criterion_pT`. -/
def pt_single_fired (b s o : Chars) : Bool :=
  let es := pt_extract_single b s
  let eo := pt_extract_single b o
  if es.1 ≠ eo.1 then false
  else optGt es.2 eo.2

/-- Double-object branch of `criterion_pT`. -/
def pt_double_fired (b s o : Chars) : Bool :=
  let es := pt_extract_double b s
  let eo := pt_extract_double b o
  if es.1 ≠ eo.1 then false
  else
    let sTypes : List PyListElem := [pyElem es.2.1, pyElem es.2.2]
    let oTypes : List PyListElem := [pyElem eo.2.1, pyElem eo.2.2]
    let allowed : List (List PyListElem) :=
      [[.ofType .float, .noneVal], [.ofType .float, .ofType .float]]
    if ¬ (sTypes ∈ allowed) ∨ ¬ (oTypes ∈ allowed) then false
    else
      let c1 : Bool :=
        if sTypes = [.ofType .float, .noneVal] ∧ oTypes = [.ofType .float, .noneVal] then
          optGt es.2.1 eo.2.1
        else false
      let c2 : Bool :=
        if sTypes = [.ofType .float, .ofType .float] ∧
            oTypes = [.ofType .float, .ofType .float] then
          optGe es.2.1 eo.2.1 && optGe es.2.2 eo.2.2 &&
            (optGt es.2.1 eo.2.1 || optGt es.2.2 eo.2.2)
        else false
      c1 || c2

/-- Triple-object branch of `criterion_pT`. -/
def pt_triple_fired (b s o : Chars) : Bool :=
  let es := pt_extract_triple b s
  let eo := pt_extract_triple b o
  if es.1 ≠ eo.1 then false
  else
    let sT : List PyListElem := [pyElem es.2.1, pyElem es.2.2.1, pyElem es.2.2.2]
    let oT : List PyListElem := [pyElem eo.2.1, pyElem eo.2.2.1, pyElem eo.2.2.2]
    let allowed : List (List PyListElem) :=
      [[.ofType .float, .ofType .noneT, .ofType .noneT],
        [.ofType .float, .ofType .float, .ofType .float]]
    if ¬ (sT ∈ allowed) ∨ ¬ (oT ∈ allowed) then false
    else
      let c1 : Bool :=
        if sT = [.ofType .float, .ofType .noneT, .ofType .noneT] ∧
            oT = [.ofType .float, .ofType .noneT, .ofType .noneT] then
          optGt es.2.1 eo.2.1
        else false
      let c2 : Bool :=
        if sT = [.ofType .float, .ofType .float, .ofType .float] ∧
            oT = [.ofType .float, .ofType .float, .ofType .float] then
          optGe es.2.1 eo.2.1 && optGe es.2.2.1 eo.2.2.1 && optGe es.2.2.2 eo.2.2.2 &&
            (optGt es.2.1 eo.2.1 || optGt es.2.2.1 eo.2.2.1 || optGt es.2.2.2 eo.2.2.2)
        else false
      c1 || c2

/-- Quadruple-object branch of `criterion_pT`. -/
def pt_quad_fired (b s o : Chars) : Bool :=
  let es := pt_extract_quad b s
  let eo := pt_extract_quad b o
  if es.1 ≠ eo.1 then false
  else
    let sT : List PyListElem :=
      [pyElem es.2.1, pyElem es.2.2.1, pyElem es.2.2.2.1, pyElem es.2.2.2.2]
    let oT : List PyListElem :=
      [pyElem eo.2.1, pyElem eo.2.2.1, pyElem eo.2.2.2.1, pyElem eo.2.2.2.2]
    let allowed : List (List PyListElem) :=
      [[.ofType .float, .ofType .noneT, .ofType .noneT, .ofType .noneT],
        [.ofType .float, .ofType .float, .ofType .float, .ofType .float]]
    if ¬ (sT ∈ allowed) ∨ ¬ (oT ∈ allowed) then false
    else
      let c1 : Bool :=
        if sT = [.ofType .float, .ofType .noneT, .ofType .noneT, .ofType .noneT] ∧
            oT = [.ofType .float, .ofType .noneT, .ofType .noneT, .ofType .noneT] then
          optGt es.2.1 eo.2.1
        else false
      let c2 : Bool :=
        if sT = [.ofType .float, .ofType .float, .ofType .float, .ofType .float] ∧
            oT = [.ofType .float, .ofType .float, .ofType .float, .ofType .float] then
          optGe es.2.1 eo.2.1 && optGe es.2.2.1 eo.2.2.1 &&
            optGe es.2.2.2.1 eo.2.2.2.1 && optGe es.2.2.2.2 eo.2.2.2.2 &&
            (optGt es.2.1 eo.2.1 || optGt es.2.2.1 eo.2.2.1 ||
              optGt es.2.2.2.1 eo.2.2.2.1 || optGt es.2.2.2.2 eo.2.2.2.2)
        else false
      c1 || c2

/-- Dispatch of `criterion_pT` over the four seed-object multiplicities, keyed on
the family keywords contained in the lower-cased basename (single-object when
none of `double`/`triple`/`quad` occurs; the final `false` mirrors the source's
`elif` chain falling through, which cannot happen). -/
def pt_fired (b s o : Chars) : Bool :=
  if ¬ (hasOccur doubleLit (lowerChars b) = true ∨ hasOccur tripleLit (lowerChars b) = true ∨
      hasOccur quadLit (lowerChars b) = true) then
    pt_single_fired b s o
  else if hasOccur doubleLit (lowerChars b) then pt_double_fired b s o
  else if hasOccur tripleLit (lowerChars b) then pt_triple_fired b s o
  else if hasOccur quadLit (lowerChars b) then pt_quad_fired b s o
  else false

/-- The branch-appropriate stripped name the pT criterion compares: the name with
`basename + group(1) + group(2)` (and, in the triple/quadruple branches, group 3
when it converts) replaced by the basename. -/
def pt_strip (b s : Chars) : Chars :=
  if ¬ (hasOccur doubleLit (lowerChars b) = true ∨ hasOccur tripleLit (lowerChars b) = true ∨
      hasOccur quadLit (lowerChars b) = true) then
    (pt_extract_single b s).1
  else if hasOccur doubleLit (lowerChars b) then (pt_extract_double b s).1
  else if hasOccur tripleLit (lowerChars b) then (pt_extract_triple b s).1
  else if hasOccur quadLit (lowerChars b) then (pt_extract_quad b s).1
  else s

/-- Embedding of `criterion_pT`. -/
def criterion_pT (seed : Chars) (prescale : Int) (otherseed : Chars)
    (otherprescale : Int) : Bool × Option Chars × Option Chars :=
  if get_seed_basename seed ≠ get_seed_basename otherseed then (false, none, none)
  else
    match get_seed_basename seed with
    | none => (false, none, none)
    | some b =>
      (pt_fired b seed otherseed,
        if pt_fired b seed otherseed then some otherseed else none,
        if pt_fired b seed otherseed then some labelPT else none)

/-- The eta-restriction value of a name: the first er match with the `er` text
removed, converted to float (`None` when no match). -/
def erValOf (s : Chars) : Option PyVal :=
  match (erFindAll s).head? with
  | some m => convert_to_float (replaceAll m erLit [])
  | none => none

/-- The name with the (sole) eta-restriction token removed, as the er criterion
compares it. -/
def erStripped (s : Chars) : Chars :=
  match (erFindAll s).head? with
  | some m => replaceAll s m []
  | none => s

/-- The two `is_backup_candidate` conditions of `criterion_er`: both values
explicit and seed's strictly smaller, or seed's explicit and strictly positive
while the other has none. -/
def er_fired (s o : Chars) : Bool :=
  (match erValOf s, erValOf o with | some a, some c => pyLt a c | _, _ => false) ||
  (match erValOf s, erValOf o with | some a, none => pyGt a (PyVal.fin 0) | _, _ => false)

/-- Embedding of `criterion_er`. -/
def criterion_er (seed : Chars) (prescale : Int) (otherseed : Chars)
    (otherprescale : Int) : Bool × Option Chars × Option Chars :=
  if get_seed_basename seed ≠ get_seed_basename otherseed then (false, none, none)
  else if 1 < (erFindAll seed).length ∨ 1 < (erFindAll otherseed).length then
    (false, none, none)
  else if (erFindAll seed).length = 0 ∧ (erFindAll otherseed).length = 0 then
    (false, none, none)
  else if erStripped seed ≠ erStripped otherseed then (false, none, none)
  else
    (er_fired seed otherseed,
      if er_fired seed otherseed then some otherseed else none,
      if er_fired seed otherseed then some labelER else none)

/-- dRmax analogue of `erValOf`. -/
def dRmaxValOf (s : Chars) : Option PyVal :=
  match (dRmaxFindAll s).head? with
  | some m => convert_to_float (replaceAll m dRMaxLit [])
  | none => none

/-- dRmax analogue of `erStripped`. -/
def dRmaxStripped (s : Chars) : Chars :=
  match (dRmaxFindAll s).head? with
  | some m => replaceAll s m []
  | none => s

/-- The two `is_backup_candidate` conditions of `criterion_dRmax`. -/
def dRmax_fired (s o : Chars) : Bool :=
  (match dRmaxValOf s, dRmaxValOf o with | some a, some c => pyLt a c | _, _ => false) ||
  (match dRmaxValOf s, dRmaxValOf o with | some a, none => pyGt a (PyVal.fin 0) | _, _ => false)

/-- Embedding of `criterion_dRmax`. -/
def criterion_dRmax (seed : Chars) (prescale : Int) (otherseed : Chars)
    (otherprescale : Int) : Bool × Option Chars × Option Chars :=
  if get_seed_basename seed ≠ get_seed_basename otherseed then (false, none, none)
  else if 1 < (dRmaxFindAll seed).length ∨ 1 < (dRmaxFindAll otherseed).length then
    (false, none, none)
  else if (dRmaxFindAll seed).length = 0 ∧ (dRmaxFindAll otherseed).length = 0 then
    (false, none, none)
  else if dRmaxStripped seed ≠ dRmaxStripped otherseed then (false, none, none)
  else
    (dRmax_fired seed otherseed,
      if dRmax_fired seed otherseed then some otherseed else none,
      if dRmax_fired seed otherseed then some labelDRmax else none)

/-- dRmin analogue of `erValOf`. -/
def dRminValOf (s : Chars) : Option PyVal :=
  match (dRminFindAll s).head? with
  | some m => convert_to_float (replaceAll m dRMinLit [])
  | none => none

/-- dRmin analogue of `erStripped`. -/
def dRminStripped (s : Chars) : Chars :=
  match (dRminFindAll s).head? with
  | some m => replaceAll s m []
  | none => s

/-- The two `is_backup_candidate` conditions of `criterion_dRmin`: note the first
comparison is reversed relative to dRmax — a larger minimum separation is the
tighter cut. -/
def dRmin_fired (s o : Chars) : Bool :=
  (match dRminValOf s, dRminValOf o with | some a, some c => pyGt a c | _, _ => false) ||
  (match dRminValOf s, dRminValOf o with | some a, none => pyGt a (PyVal.fin 0) | _, _ => false)

/-- Embedding of `criterion_dRmin`. -/
def criterion_dRmin (seed : Chars) (prescale : Int) (otherseed : Chars)
    (otherprescale : Int) : Bool × Option Chars × Option Chars :=
  if get_seed_basename seed ≠ get_seed_basename otherseed then (false, none, none)
  else if 1 < (dRminFindAll seed).length ∨ 1 < (dRminFindAll otherseed).length then
    (false, none, none)
  else if (dRminFindAll seed).length = 0 ∧ (dRminFindAll otherseed).length = 0 then
    (false, none, none)
  else if dRminStripped seed ≠ dRminStripped otherseed then (false, none, none)
  else
    (dRmin_fired seed otherseed,
      if dRmin_fired seed otherseed then some otherseed else none,
      if dRmin_fired seed otherseed then some labelDRmin else none)

/-- The `[0]`/`[1]` mass-window endpoints obtained from a full `Mass...` match:
drop up to the first digit, split on `to`, convert both parts.  Every part is a
`\d+p\d+|\d+` literal, so conversion always succeeds. -/
def massRangeOf (m : Chars) : Option PyVal × Option PyVal :=
  let parts := (splitOnSub (m.dropWhile (fun c => !c.isDigit)) toLit).map convert_to_float
  (parts.getD 0 none, parts.getD 1 none)

/-- Mass analogue of `erStripped`, with the trailing-underscore trim of the
source. -/
def massStripped (s : Chars) : Chars :=
  match (massFindAll s).head? with
  | some m => trimUnd (replaceAll s m [])
  | none => s

/-- The parsed (low, high) mass window of a name, when a window is present. -/
def massRangeOpt (s : Chars) : Option (Option PyVal × Option PyVal) :=
  ((massFindAll s).head?).map massRangeOf

/-- The two `is_backup_candidate` conditions of `criterion_MassXtoY`: both windows
explicit and seed's width strictly smaller, or seed has a window and the other has
none.  (The all-`none` fallback of the first match is unreachable: window
endpoints are `\d+p\d+|\d+` literals and always convert.) -/
def mass_fired (s o : Chars) : Bool :=
  (match massRangeOpt s, massRangeOpt o with
    | some (some a0, some a1), some (some c0, some c1) =>
      pyLt (pySub a1 a0) (pySub c1 c0)
    | _, _ => false) ||
  (match massRangeOpt s, massRangeOpt o with
    | some _, none => true
    | _, _ => false)

/-- Embedding of `criterion_MassXtoY`. -/
def criterion_MassXtoY (seed : Chars) (prescale : Int) (otherseed : Chars)
    (otherprescale : Int) : Bool × Option Chars × Option Chars :=
  if get_seed_basename seed ≠ get_seed_basename otherseed then (false, none, none)
  else if 1 < (massFindAll seed).length ∨ 1 < (massFindAll otherseed).length then
    (false, none, none)
  else if (massFindAll seed).length = 0 ∧ (massFindAll otherseed).length = 0 then
    (false, none, none)
  else if massStripped seed ≠ massStripped otherseed then (false, none, none)
  else
    (mass_fired seed otherseed,
      if mass_fired seed otherseed then some otherseed else none,
      if mass_fired seed otherseed then some labelMass else none)

/-- Residual of a name after stripping the basename and all three quality tokens,
in the source's replacement order: basename, `_SQ`, `_DQ`, `_OQ`. -/
def qualStrip (b s : Chars) : Chars :=
  replaceAll (replaceAll (replaceAll (replaceAll s b []) sqTok []) dqTok []) oqTok []

/-- No quality token occurs in the name. -/
def noQualTok (s : Chars) : Bool :=
  !(hasOccur sqTok s) && !(hasOccur dqTok s) && !(hasOccur oqTok s)

/-- The single/default quality of `criterion_quality`: no quality token at all, or
an explicit `_SQ`. -/
def qual_isSQ (s : Chars) : Bool := noQualTok s || hasOccur sqTok s

/-- The double/default quality of `criterion_quality`: no quality token at all, or
an explicit `_DQ`. -/
def qual_isDQ (s : Chars) : Bool := noQualTok s || hasOccur dqTok s

/-- The `do_further_checks` flag of `criterion_quality`: the single-muon upgrade
paths (single-quality seed vs `_DQ`/`_OQ` other; `_DQ` seed vs `_OQ` other) and the
multi-muon paths (`_SQ` seed vs double-or-open other; double-quality seed vs `_OQ`
other), each gated by the respective family substring of the basename. -/
def qual_do_further (b s o : Chars) : Bool :=
  (if hasOccur singleMuLit (lowerChars b) then
    (qual_isSQ s && (hasOccur dqTok o || hasOccur oqTok o)) ||
      (hasOccur dqTok s && hasOccur oqTok o)
  else false) ||
  (if hasOccur doubleMuLit (lowerChars b) || hasOccur tripleMuLit (lowerChars b) ||
      hasOccur quadMuLit (lowerChars b) then
    (hasOccur sqTok s && (qual_isDQ o || hasOccur oqTok o)) ||
      (qual_isDQ s && hasOccur oqTok o)
  else false)

/-- The `is_backup_candidate` flag of `criterion_quality`: the further checks are
requested and the residuals after stripping basename and quality tokens agree. -/
def qual_fired (b s o : Chars) : Bool :=
  qual_do_further b s o && (qualStrip b s == qualStrip b o)

/-- Embedding of `criterion_quality`. -/
def criterion_quality (seed : Chars) (prescale : Int) (otherseed : Chars)
    (otherprescale : Int) : Bool × Option Chars × Option Chars :=
  match get_seed_basename seed with
  | none => (false, none, none)
  | some b =>
    if ¬ (hasOccur singleMuLit (lowerChars b) = true ∨
        hasOccur doubleMuLit (lowerChars b) = true ∨
        hasOccur tripleMuLit (lowerChars b) = true ∨
        hasOccur quadMuLit (lowerChars b) = true) then
      (false, none, none)
    else if ¬ b.isPrefixOf otherseed then (false, none, none)
    else
      (qual_fired b seed otherseed,
        if qual_fired b seed otherseed then some otherseed else none,
        if qual_fired b seed otherseed then some labelQuality else none)

/-- Embedding of `criterion_prescale`. -/
def criterion_prescale (seed : Chars) (prescale : Int) (otherseed : Chars)
    (otherprescale : Int) : Bool × Option Chars × Option Chars :=
  if seed = otherseed ∧ otherprescale < prescale then
    (true, some otherseed, some labelPrescale)
  else (false, none, none)

/-- The isolation token of a name (`Iso`, `LooseIso`, or `none`). -/
def isoStrOf (s : Chars) : Option Chars := (isoFindAll s).head?

/-- Isolation analogue of `erStripped`, with the trailing-underscore trim of the
source. -/
def isoStripped (s : Chars) : Chars :=
  match isoStrOf s with
  | some m => trimUnd (replaceAll s m [])
  | none => s

/-- Isolation tightness rank, tightest first: `Iso` < `LooseIso` < no token.  (The
rank 3 for other token texts is never taken: the scanner only produces the two
literals.) -/
def isoRank : Option Chars → Nat
  | some m => if m = isoLit then 0 else if m = looseIsoLit then 1 else 3
  | none => 2

/-- The three `is_backup_candidate` conditions of `criterion_isolation`:
`Iso` vs `LooseIso`, `Iso` vs none, `LooseIso` vs none. -/
def iso_fired (s o : Chars) : Bool :=
  (isoStrOf s == some isoLit && isoStrOf o == some looseIsoLit) ||
  (isoStrOf s == some isoLit && isoStrOf o == none) ||
  (isoStrOf s == some looseIsoLit && isoStrOf o == none)

/-- Embedding of `criterion_isolation`. -/
def criterion_isolation (seed : Chars) (prescale : Int) (otherseed : Chars)
    (otherprescale : Int) : Bool × Option Chars × Option Chars :=
  if get_seed_basename seed ≠ get_seed_basename otherseed then (false, none, none)
  else if 1 < (isoFindAll seed).length ∨ 1 < (isoFindAll otherseed).length then
    (false, none, none)
  else if (isoFindAll seed).length = 0 ∧ (isoFindAll otherseed).length = 0 then
    (false, none, none)
  else if isoStripped seed ≠ isoStripped otherseed then (false, none, none)
  else
    (iso_fired seed otherseed,
      if iso_fired seed otherseed then some otherseed else none,
      if iso_fired seed otherseed then some labelIsolation else none)

/-! ### Pairwise and table-level classification -/

/-- The fixed, ordered collection of backup-seed criteria of `has_signal_seed`. -/
def criterion_functions :
    List (Chars → Int → Chars → Int → Bool × Option Chars × Option Chars) :=
  [criterion_prescale, criterion_pT, criterion_er, criterion_dRmax, criterion_dRmin,
    criterion_MassXtoY, criterion_quality, criterion_isolation]

/-- The (signal-seed-name, criterion-label) pairs appended by the inner loop of
`has_signal_seed` for one (seed, otherseed) combination, over a given criterion
list, in list order. -/
def firedOver (cs : List (Chars → Int → Chars → Int → Bool × Option Chars × Option Chars))
    (seed : Chars) (prescale : Int) (other : Chars) (ops : Int) :
    List (Option Chars × Option Chars) :=
  cs.foldr (fun c acc =>
    let r := c seed prescale other ops
    if r.1 then (r.2.1, r.2.2) :: acc else acc) []

/-- All criterion results fired for one (seed, otherseed) pair. -/
def fired_for_pair (seed : Chars) (prescale : Int) (other : Chars) (ops : Int) :
    List (Option Chars × Option Chars) :=
  firedOver criterion_functions seed prescale other ops

/-- Embedding of `has_signal_seed`: iterate every (otherseed, otherprescale) row and
every criterion; a pair is skipped when either name cell is not a string (modelled
by `Option`).  Returns the backup flag and the two evidence lists, in discovery
order. -/
def has_signal_seed (seed : Option Chars) (prescale : Int) :
    List (Option Chars × Int) → Bool × List (Option Chars) × List (Option Chars)
  | [] => (false, [], [])
  | (other, ops) :: rest =>
    let fires := match seed, other with
      | some s, some o => fired_for_pair s prescale o ops
      | _, _ => []
    let r := has_signal_seed seed prescale rest
    (!fires.isEmpty || r.1, fires.map (fun x => x.1) ++ r.2.1,
      fires.map (fun x => x.2) ++ r.2.2)

/-- Worker of `separate_signal_and_backup_seeds`: iterate the remaining rows in
order, keeping the full table for the pairwise classification. -/
def separateGo (full : List (Option Chars × Int)) :
    List (Option Chars × Int) → List (Option Chars × Int) × List (Option Chars × Int)
  | [] => ([], [])
  | row :: rest =>
    let r := separateGo full rest
    if (has_signal_seed row.1 row.2 full).1 then (r.1, row :: r.2)
    else (row :: r.1, r.2)

/-- Embedding of `separate_signal_and_backup_seeds` (restricted to its core: the
(name, prescale) columns are already extracted; reporting is external).  Returns
(signal rows, backup rows) in original row order. -/
def separate_signal_and_backup_seeds (table : List (Option Chars × Int)) :
    List (Option Chars × Int) × List (Option Chars × Int) :=
  separateGo table table

/-! ### Example seed names used by the claims -/

def exDouble106 : Chars := "L1_DoubleMu10_6".toList

def exDouble85 : Chars := "L1_DoubleMu8_5".toList

def exDouble810 : Chars := "L1_DoubleMu8_10".toList

def exDouble108 : Chars := "L1_DoubleMu10_8".toList

def exDouble10 : Chars := "L1_DoubleMu10".toList

def exDouble8 : Chars := "L1_DoubleMu8".toList

def exTriple1064 : Chars := "L1_TripleMu10_6_4".toList

def exTriple853 : Chars := "L1_TripleMu8_5_3".toList

def exSingleMu7 : Chars := "L1_SingleMu7".toList

def exSingleMu5 : Chars := "L1_SingleMu5".toList

def exSingleMu7OQ : Chars := "L1_SingleMu7_OQ".toList

def exSingleMu7DQ : Chars := "L1_SingleMu7_DQ".toList

def exSingleMu7SQOQ : Chars := "L1_SingleMu7_SQ_OQ".toList

def exEr1p5U : Chars := "L1_SingleMu5_er1p5".toList

def exEr1p5A : Chars := "L1_SingleMu5er1p5".toList

def exEr2p0 : Chars := "L1_SingleMu5_er2p0".toList

def exEr2p5 : Chars := "L1_SingleMu5_er2p5".toList

def exIsoPre : Chars := "L1_SingleIsoMu5".toList

def exLooseIsoPre : Chars := "L1_SingleLooseIsoMu5".toList

def exIsoSuf : Chars := "L1_SingleMu5_Iso".toList

def exLooseIsoSuf : Chars := "L1_SingleMu5_LooseIso".toList

def exXer1 : Chars := "Xer1".toList

def exXer2 : Chars := "Xer2".toList

/-- C3: multi-object momentum-threshold comparison.  The code refutes the claim on
double-object seeds: with both thresholds explicit, `L1_DoubleMu10_6` dominates
`L1_DoubleMu8_5` component-wise (10 ≥ 8, 6 ≥ 5, not all equal) yet the criterion
returns a negative result, because the replacement string omits the second
threshold (group 3), so the residuals keep `_6` vs `_5` and differ; and with only
the first threshold given on both sides (`L1_DoubleMu10` vs `L1_DoubleMu8`) the
criterion also returns a negative result, because the double-object branch checks
the type list `[float, NoneType]` against the literal `[float, None]` (the value
`None`, not the type).  The same comparisons behave exactly as the claim states in
the triple-object branch, which includes group 3 in the replacement and writes
`type(None)` in its allowed type shapes — evidencing that the double-object
behaviour is a slip, not intent (the function's docstring promises the
component-wise comparison for all multi-object seeds). -/
theorem C3_pT_double_code_bug :
    (criterion_pT exDouble106 0 exDouble85 0).1 = false ∧
    (criterion_pT exDouble10 0 exDouble8 0).1 = false ∧
    (criterion_pT exDouble810 0 exDouble108 0).1 = false ∧
    (criterion_pT exTriple1064 0 exTriple853 0).1 = true ∧
    (criterion_pT exTriple853 0 exTriple1064 0).1 = false := by
  decide

/-- C2 counterexample: `criterion_er` returns a positive result for the pair
(`Xer1`, `Xer2`) although neither name reduces to a non-null basename — both
basenames are null (no `L1_` marker), they compare equal, and the function lacks
the null check that `criterion_pT` has, so the eta comparison proceeds and fires
(1.0 < 2.0).  This refutes the claim that every criterion returns a positive
result only if both names reduce to the same NON-NULL basename. -/
theorem C2_er_null_basename_cex :
    (criterion_er exXer1 0 exXer2 0).1 = true ∧
    get_seed_basename exXer1 = none ∧ get_seed_basename exXer2 = none := by
  decide

/-- C4 counterexample: the claim states `SingleMu5_er1p5` is a backup to
`SingleMu5`, but `criterion_er` returns a negative result on this pair: removing
the token `er1p5` from `L1_SingleMu5_er1p5` leaves `L1_SingleMu5_`, whose trailing
underscore makes the residual differ from `L1_SingleMu5`.  (The same happens
without the `L1_` marker.) -/
theorem C4_er_underscore_cex :
    (criterion_er exEr1p5U 0 exSingleMu5 0).1 = false ∧
    (criterion_er "SingleMu5_er1p5".toList 0 "SingleMu5".toList 0).1 = false := by
  decide

/-- C6 counterexample: the claim states `SingleIsoMu5` is a backup to
`SingleLooseIsoMu5` and the latter a backup to `SingleMu5`, but
`criterion_isolation` returns a negative result on both pairs: the isolation token
sits before the threshold digits, so it is absorbed into the basename
(`L1_SingleIsoMu` vs `L1_SingleLooseIsoMu` vs `L1_SingleMu`), and the criterion's
first guard — identical basenames — rejects each pair. -/
theorem C6_iso_basename_cex :
    (criterion_isolation exIsoPre 0 exLooseIsoPre 0).1 = false ∧
    (criterion_isolation exLooseIsoPre 0 exSingleMu5 0).1 = false ∧
    get_seed_basename exIsoPre ≠ get_seed_basename exLooseIsoPre := by
  decide

/-- C7 counterexample: for the name `L1_SingleMu7_SQ_OQ` — which carries both an
`_SQ` and an `_OQ` token — two rows with prescales 10 and 5 do NOT relate via the
prescale criterion only: the muon-quality criterion fires for the pair as well
(and even for the row against itself), so the claim's "and via no other
criterion" fails, and the prescale-5 row is itself classified as a backup. -/
theorem C7_prescale_only_cex :
    has_signal_seed (some exSingleMu7SQOQ) 10
        [(some exSingleMu7SQOQ, 10), (some exSingleMu7SQOQ, 5)] =
      (true, [some exSingleMu7SQOQ, some exSingleMu7SQOQ, some exSingleMu7SQOQ],
        [some labelQuality, some labelPrescale, some labelQuality]) ∧
    (has_signal_seed (some exSingleMu7SQOQ) 5
        [(some exSingleMu7SQOQ, 10), (some exSingleMu7SQOQ, 5)]).1 = true := by
  decide

/-- C7 amended: `criterion_prescale` returns a positive result iff the two names
are exactly equal and seed's prescale is strictly greater; for two rows carrying
the identical name `L1_SingleMu7` — a name that triggers no name-based criterion
against itself — and prescales 10 and 5, the prescale-10 row is classified a
backup to the prescale-5 row with the prescale criterion as its only evidence,
and the prescale-5 row is not classified a backup.  (For names that do fire a
name-based criterion in self-comparison, such as `L1_SingleMu7_SQ_OQ`, further
criteria appear — see the counterexample.) -/
theorem C7_prescale_criterion_amended :
    (∀ (s o : Chars) (p q : Int),
      (criterion_prescale s p o q).1 = true ↔ s = o ∧ q < p) ∧
    has_signal_seed (some exSingleMu7) 10
        [(some exSingleMu7, 10), (some exSingleMu7, 5)] =
      (true, [some exSingleMu7], [some labelPrescale]) ∧
    (has_signal_seed (some exSingleMu7) 5
        [(some exSingleMu7, 10), (some exSingleMu7, 5)]).1 = false := by
  refine ⟨?_, by decide, by decide⟩
  intro s o p q
  unfold criterion_prescale
  split_ifs with h
  · simpa using h
  · simpa using h

/-- C7 witness: the prescale iff applied at two rows with the identical name
`L1_SingleMu7` and prescales 10 and 5. -/
theorem C7_prescale_witness :
    (criterion_prescale exSingleMu7 10 exSingleMu7 5).1 = true :=
  (C7_prescale_criterion_amended.1 exSingleMu7 exSingleMu7 10 5).mpr ⟨rfl, by decide⟩

/-- C10: the seven name-based criterion functions are independent of the two
prescale arguments — their results are literally the same terms for any prescale
values; only `criterion_prescale` reads the prescales. -/
theorem C10_prescale_independence :
    ∀ (s o : Chars) (p p' q q' : Int),
      criterion_pT s p o q = criterion_pT s p' o q' ∧
      criterion_er s p o q = criterion_er s p' o q' ∧
      criterion_dRmax s p o q = criterion_dRmax s p' o q' ∧
      criterion_dRmin s p o q = criterion_dRmin s p' o q' ∧
      criterion_MassXtoY s p o q = criterion_MassXtoY s p' o q' ∧
      criterion_quality s p o q = criterion_quality s p' o q' ∧
      criterion_isolation s p o q = criterion_isolation s p' o q' := by
  intro s o p p' q q'
  exact ⟨rfl, rfl, rfl, rfl, rfl, rfl, rfl⟩

/-! ### Helper lemmas on the string primitives -/

theorem isPrefixOf_append_self (p t : Chars) : p.isPrefixOf (p ++ t) = true :=
  List.isPrefixOf_iff_prefix.mpr (List.prefix_append p t)

theorem hasOccur_mem {pat l : Chars} (h : hasOccur pat l = true) :
    ∀ x ∈ pat, x ∈ l := by
  induction l with
  | nil =>
    intro x hx
    simp [hasOccur, List.isEmpty_iff] at h
    simp [h] at hx
  | cons c rest ih =>
    simp only [hasOccur, Bool.or_eq_true] at h
    rcases h with h1 | h2
    · intro x hx
      exact (List.isPrefixOf_iff_prefix.mp h1).subset hx
    · intro x hx
      exact List.mem_cons_of_mem _ (ih h2 x hx)

theorem replaceAllGo_no_occur (pat rep : Chars) :
    ∀ (fuel : Nat) (l : Chars), hasOccur pat l = false → replaceAllGo pat rep fuel l = l := by
  intro fuel
  induction fuel with
  | zero => intro l _; cases l <;> rfl
  | succ n ih =>
    intro l h
    cases l with
    | nil => rfl
    | cons c rest =>
      simp only [hasOccur, Bool.or_eq_false_iff] at h
      rw [replaceAllGo, if_neg, ih rest h.2]
      rintro ⟨-, hpre⟩
      simp [h.1] at hpre

theorem replaceAll_no_occur {pat l : Chars} (rep : Chars) (h : hasOccur pat l = false) :
    replaceAll l pat rep = l :=
  replaceAllGo_no_occur pat rep l.length l h

theorem replaceAll_append {pat t : Chars} (rep : Chars) (hne : pat ≠ [])
    (h : hasOccur pat t = false) : replaceAll (pat ++ t) pat rep = rep ++ t := by
  unfold replaceAll
  cases pat with
  | nil => exact absurd rfl hne
  | cons a as =>
    rw [show (a :: as) ++ t = a :: (as ++ t) from rfl]
    rw [show (a :: (as ++ t)).length = (as ++ t).length + 1 from rfl]
    rw [replaceAllGo, if_pos]
    · rw [show a :: (as ++ t) = (a :: as) ++ t from rfl, List.drop_left,
        replaceAllGo_no_occur _ _ _ _ h]
    · exact ⟨hne, isPrefixOf_append_self _ _⟩

/-- C8: the basename extractor is a pure function (equal names give equal
basenames), returns null exactly for names not bearing the `L1_` family marker,
and is idempotent: whenever it produces a basename, re-running it on that
basename returns the basename unchanged. -/
theorem C8_basename_pure_null_idempotent :
    (∀ s t : Chars, s = t → get_seed_basename s = get_seed_basename t) ∧
    (∀ s : Chars, get_seed_basename s = none ↔ ¬ l1Str.isPrefixOf s = true) ∧
    (∀ s b : Chars, get_seed_basename s = some b → get_seed_basename b = some b) := by
  refine ⟨fun s t h => by rw [h], ?_, ?_⟩
  · intro s
    unfold get_seed_basename
    split_ifs with h
    · simp [h]
    · simp [h]
  · intro s b h
    unfold get_seed_basename at h
    split_ifs at h with hp
    set t := ((replaceAll s l1Str []).takeWhile (fun c => !(c == '_'))).takeWhile
      (fun c => !c.isDigit) with ht
    have hb : l1Str ++ t = b := Option.some.inj h
    subst hb
    have tmem : ∀ x ∈ t, (!x.isDigit) = true := by
      intro x hx
      rw [ht] at hx
      have h3 := List.mem_takeWhile_imp hx
      exact h3
    have tmem2 : ∀ x ∈ t, (!(x == '_')) = true := by
      intro x hx
      rw [ht] at hx
      have hx2 : x ∈ (replaceAll s l1Str []).takeWhile (fun c => !(c == '_')) :=
        (List.takeWhile_prefix _).subset hx
      have h3 := List.mem_takeWhile_imp hx2
      exact h3
    have hocc : hasOccur l1Str t = false := by
      by_contra hocc
      have h1 : '1' ∈ t := hasOccur_mem (by simpa using hocc) '1' (by decide)
      have := tmem '1' h1
      simp at this
    unfold get_seed_basename
    rw [if_neg (by simp [isPrefixOf_append_self])]
    rw [replaceAll_append [] (by decide) hocc]
    show some (l1Str ++ (t.takeWhile (fun c => !(c == '_'))).takeWhile (fun c => !c.isDigit)) =
      some (l1Str ++ t)
    rw [List.takeWhile_eq_self_iff.mpr tmem2, List.takeWhile_eq_self_iff.mpr tmem]

/-- C8 witness: a concrete run of the exactness and idempotence parts at
`L1_SingleMu7` and its basename `L1_SingleMu`. -/
theorem C8_basename_witness :
    ¬ (get_seed_basename exSingleMu7 = none) ∧
    get_seed_basename "L1_SingleMu".toList = some "L1_SingleMu".toList := by
  constructor
  · intro hnone
    have := (C8_basename_pure_null_idempotent.2.1 exSingleMu7).mp hnone
    exact this (by decide)
  · exact C8_basename_pure_null_idempotent.2.2 exSingleMu7 "L1_SingleMu".toList (by decide)

/-! ### Lemmas on the classifier -/

theorem firedOver_ne_nil_iff
    (cs : List (Chars → Int → Chars → Int → Bool × Option Chars × Option Chars))
    (s : Chars) (p : Int) (o : Chars) (q : Int) :
    firedOver cs s p o q ≠ [] ↔ ∃ c ∈ cs, (c s p o q).1 = true := by
  induction cs with
  | nil =>
    constructor
    · intro h
      exact absurd rfl h
    · rintro ⟨c, hc, -⟩
      exact absurd hc (List.not_mem_nil c)
  | cons c rest ih =>
    simp only [firedOver, List.foldr_cons] at ih ⊢
    by_cases hc : (c s p o q).1 = true
    · rw [if_pos hc]
      refine iff_of_true (List.cons_ne_nil _ _) ⟨c, List.mem_cons_self _ _, hc⟩
    · rw [if_neg hc, ih]
      constructor
      · rintro ⟨c', hc', hf⟩
        exact ⟨c', List.mem_cons_of_mem _ hc', hf⟩
      · rintro ⟨c', hc', hf⟩
        rcases List.mem_cons.mp hc' with h1 | h2
        · subst h1
          exact absurd hf hc
        · exact ⟨c', h2, hf⟩

theorem has_signal_seed_fst_iff (seed : Option Chars) (p : Int)
    (rows : List (Option Chars × Int)) :
    (has_signal_seed seed p rows).1 = true ↔
      ∃ e ∈ rows, ∃ s o, seed = some s ∧ e.1 = some o ∧
        ∃ c ∈ criterion_functions, (c s p o e.2).1 = true := by
  induction rows with
  | nil =>
    refine iff_of_false ?_ ?_
    · intro h
      simp [has_signal_seed] at h
    · rintro ⟨e, he, -⟩
      exact absurd he (List.not_mem_nil e)
  | cons row rest ih =>
    obtain ⟨other, ops⟩ := row
    simp only [has_signal_seed, Bool.or_eq_true, ih]
    constructor
    · rintro (hf | hr)
      · cases seed with
        | none => simp at hf
        | some s =>
          cases other with
          | none => simp at hf
          | some o =>
            have hne : fired_for_pair s p o ops ≠ [] := by simpa using hf
            obtain ⟨c, hc, hfire⟩ := (firedOver_ne_nil_iff _ _ _ _ _).mp hne
            exact ⟨(some o, ops), List.mem_cons_self _ _, s, o, rfl, rfl, c, hc, hfire⟩
      · obtain ⟨e, he, rest'⟩ := hr
        exact ⟨e, List.mem_cons_of_mem _ he, rest'⟩
    · rintro ⟨e, he, s, o, hs, ho, c, hc, hfire⟩
      rcases List.mem_cons.mp he with he1 | he2
      · left
        subst hs
        subst he1
        simp only at ho
        rw [ho]
        have hne : fired_for_pair s p o ops ≠ [] :=
          (firedOver_ne_nil_iff _ _ _ _ _).mpr ⟨c, hc, hfire⟩
        simpa using hne
      · right
        exact ⟨e, he2, s, o, hs, ho, c, hc, hfire⟩

theorem filter_length_split {α : Type} (p : α → Bool) (l : List α) :
    (l.filter (fun a => !(p a))).length + (l.filter p).length = l.length := by
  induction l with
  | nil => rfl
  | cons a l ih =>
    by_cases h : p a = true
    · simp [List.filter_cons, h]
      omega
    · simp [List.filter_cons, h]
      omega

theorem separateGo_eq_filter (full rows : List (Option Chars × Int)) :
    separateGo full rows =
      (rows.filter (fun row => !(has_signal_seed row.1 row.2 full).1),
        rows.filter (fun row => (has_signal_seed row.1 row.2 full).1)) := by
  induction rows with
  | nil => rfl
  | cons row rest ih =>
    simp only [separateGo, ih]
    by_cases hb : (has_signal_seed row.1 row.2 full).1 = true
    · simp [List.filter_cons, hb]
    · simp [List.filter_cons, hb]

/-- C1: `separate_signal_and_backup_seeds` partitions the table.  The signal and
backup outputs are exactly the order-preserving filters of the input rows by the
backup flag of `has_signal_seed` against the full table (so every input row lands
in exactly one output and relative row order is preserved); their lengths sum to
the number of rows; no row occurs in both outputs; and a row's backup flag is true
iff at least one criterion function returned a positive result for it against at
least one table entry (both name cells being strings). -/
theorem C1_partition (t : List (Option Chars × Int)) :
    (separate_signal_and_backup_seeds t).1 =
        t.filter (fun row => !(has_signal_seed row.1 row.2 t).1) ∧
    (separate_signal_and_backup_seeds t).2 =
        t.filter (fun row => (has_signal_seed row.1 row.2 t).1) ∧
    (separate_signal_and_backup_seeds t).1.length +
        (separate_signal_and_backup_seeds t).2.length = t.length ∧
    (∀ row, ¬ (row ∈ (separate_signal_and_backup_seeds t).1 ∧
        row ∈ (separate_signal_and_backup_seeds t).2)) ∧
    (∀ row : Option Chars × Int, (has_signal_seed row.1 row.2 t).1 = true ↔
      ∃ e ∈ t, ∃ s o, row.1 = some s ∧ e.1 = some o ∧
        ∃ c ∈ criterion_functions, (c s row.2 o e.2).1 = true) := by
  have hfil := separateGo_eq_filter t t
  have h1 : (separate_signal_and_backup_seeds t).1 =
      t.filter (fun row => !(has_signal_seed row.1 row.2 t).1) := by
    rw [separate_signal_and_backup_seeds, hfil]
  have h2 : (separate_signal_and_backup_seeds t).2 =
      t.filter (fun row => (has_signal_seed row.1 row.2 t).1) := by
    rw [separate_signal_and_backup_seeds, hfil]
  refine ⟨h1, h2, ?_, ?_, fun row => has_signal_seed_fst_iff row.1 row.2 t⟩
  · rw [h1, h2]
    exact filter_length_split _ t
  · rintro row ⟨hs, hb⟩
    rw [h1] at hs
    rw [h2] at hb
    have e1 := (List.mem_filter.mp hs).2
    have e2 := (List.mem_filter.mp hb).2
    rw [e2] at e1
    simp at e1

/-- C1 witness: concrete two-row table (a tighter and a looser single-muon seed);
the partition lengths sum to the number of rows. -/
theorem C1_partition_witness :
    (separate_signal_and_backup_seeds [(some exSingleMu7, 1), (some exSingleMu5, 1)]).1.length +
      (separate_signal_and_backup_seeds [(some exSingleMu7, 1), (some exSingleMu5, 1)]).2.length =
      2 :=
  (C1_partition [(some exSingleMu7, 1), (some exSingleMu5, 1)]).2.2.1

/-! ### Shared-precondition lemmas (claim C2) -/

theorem pt_single_fired_strip {b s o : Chars} (h : pt_single_fired b s o = true) :
    (pt_extract_single b s).1 = (pt_extract_single b o).1 := by
  by_cases hne : (pt_extract_single b s).1 = (pt_extract_single b o).1
  · exact hne
  · simp only [pt_single_fired] at h
    rw [if_pos hne] at h
    simp at h

theorem pt_double_fired_strip {b s o : Chars} (h : pt_double_fired b s o = true) :
    (pt_extract_double b s).1 = (pt_extract_double b o).1 := by
  by_cases hne : (pt_extract_double b s).1 = (pt_extract_double b o).1
  · exact hne
  · simp only [pt_double_fired] at h
    rw [if_pos hne] at h
    simp at h

theorem pt_triple_fired_strip {b s o : Chars} (h : pt_triple_fired b s o = true) :
    (pt_extract_triple b s).1 = (pt_extract_triple b o).1 := by
  by_cases hne : (pt_extract_triple b s).1 = (pt_extract_triple b o).1
  · exact hne
  · simp only [pt_triple_fired] at h
    rw [if_pos hne] at h
    simp at h

theorem pt_quad_fired_strip {b s o : Chars} (h : pt_quad_fired b s o = true) :
    (pt_extract_quad b s).1 = (pt_extract_quad b o).1 := by
  by_cases hne : (pt_extract_quad b s).1 = (pt_extract_quad b o).1
  · exact hne
  · simp only [pt_quad_fired] at h
    rw [if_pos hne] at h
    simp at h

/-- C2 amended: shared preconditions of the criterion functions, as the code
enforces them.  `criterion_pT` fires only when both names have the same non-null
basename and the branch-appropriate residuals (after removing the threshold
text) agree; `criterion_er` fires only when the basenames are equal — possibly
both null, since it lacks pT's null check — and the residuals after removing the
er token agree; `criterion_quality` fires only when the seed's basename is
non-null, the other name starts with that basename, and the residuals after
stripping the basename and all three quality tokens agree.  A failed basename
precondition (respectively, a null basename for the quality criterion) yields
the all-negative result with no error. -/
theorem C2_criterion_preconditions_amended :
    (∀ (s o : Chars) (p q : Int), (criterion_pT s p o q).1 = true →
      ∃ b, get_seed_basename s = some b ∧ get_seed_basename o = some b ∧
        pt_strip b s = pt_strip b o) ∧
    (∀ (s o : Chars) (p q : Int), get_seed_basename s ≠ get_seed_basename o →
      criterion_pT s p o q = (false, none, none)) ∧
    (∀ (s o : Chars) (p q : Int), (criterion_er s p o q).1 = true →
      get_seed_basename s = get_seed_basename o ∧ erStripped s = erStripped o) ∧
    (∀ (s o : Chars) (p q : Int), get_seed_basename s ≠ get_seed_basename o →
      criterion_er s p o q = (false, none, none)) ∧
    (∀ (s o : Chars) (p q : Int), (criterion_quality s p o q).1 = true →
      ∃ b, get_seed_basename s = some b ∧ b.isPrefixOf o = true ∧
        qualStrip b s = qualStrip b o) ∧
    (∀ (s o : Chars) (p q : Int), get_seed_basename s = none →
      criterion_quality s p o q = (false, none, none)) := by
  refine ⟨?_, ?_, ?_, ?_, ?_, ?_⟩
  · intro s o p q h
    unfold criterion_pT at h
    by_cases h1 : get_seed_basename s ≠ get_seed_basename o
    · rw [if_pos h1] at h
      simp at h
    · rw [if_neg h1] at h
      rcases hbn : get_seed_basename s with _ | b
      · rw [hbn] at h
        simp at h
      · rw [hbn] at h
        have hob : get_seed_basename o = some b := by rw [← not_ne_iff.mp h1, hbn]
        refine ⟨b, rfl, hob, ?_⟩
        have hf : pt_fired b s o = true := h
        unfold pt_fired at hf
        unfold pt_strip
        by_cases c1 : ¬ (hasOccur doubleLit (lowerChars b) = true ∨
            hasOccur tripleLit (lowerChars b) = true ∨ hasOccur quadLit (lowerChars b) = true)
        · simp only [if_pos c1] at hf ⊢
          exact pt_single_fired_strip hf
        · simp only [if_neg c1] at hf ⊢
          by_cases c2 : hasOccur doubleLit (lowerChars b) = true
          · simp only [if_pos c2] at hf ⊢
            exact pt_double_fired_strip hf
          · simp only [if_neg c2] at hf ⊢
            by_cases c3 : hasOccur tripleLit (lowerChars b) = true
            · simp only [if_pos c3] at hf ⊢
              exact pt_triple_fired_strip hf
            · simp only [if_neg c3] at hf ⊢
              by_cases c4 : hasOccur quadLit (lowerChars b) = true
              · simp only [if_pos c4] at hf ⊢
                exact pt_quad_fired_strip hf
              · rw [if_neg c4] at hf
                exact absurd hf (by simp)
  · intro s o p q hne
    unfold criterion_pT
    rw [if_pos hne]
  · intro s o p q h
    unfold criterion_er at h
    by_cases h1 : get_seed_basename s ≠ get_seed_basename o
    · rw [if_pos h1] at h
      simp at h
    · rw [if_neg h1] at h
      by_cases h2 : 1 < (erFindAll s).length ∨ 1 < (erFindAll o).length
      · rw [if_pos h2] at h
        simp at h
      · rw [if_neg h2] at h
        by_cases h3 : (erFindAll s).length = 0 ∧ (erFindAll o).length = 0
        · rw [if_pos h3] at h
          simp at h
        · rw [if_neg h3] at h
          by_cases h4 : erStripped s ≠ erStripped o
          · rw [if_pos h4] at h
            simp at h
          · exact ⟨not_ne_iff.mp h1, not_ne_iff.mp h4⟩
  · intro s o p q hne
    unfold criterion_er
    rw [if_pos hne]
  · intro s o p q h
    unfold criterion_quality at h
    rcases hbn : get_seed_basename s with _ | b
    · rw [hbn] at h
      simp at h
    · rw [hbn] at h
      have h3 : (if ¬ (hasOccur singleMuLit (lowerChars b) = true ∨
            hasOccur doubleMuLit (lowerChars b) = true ∨
            hasOccur tripleMuLit (lowerChars b) = true ∨
            hasOccur quadMuLit (lowerChars b) = true) then
          ((false, none, none) : Bool × Option Chars × Option Chars)
        else if ¬ b.isPrefixOf o = true then (false, none, none)
        else
          (qual_fired b s o,
            if qual_fired b s o then some o else none,
            if qual_fired b s o then some labelQuality else none)).1 = true := h
      clear h
      by_cases h1 : ¬ (hasOccur singleMuLit (lowerChars b) = true ∨
          hasOccur doubleMuLit (lowerChars b) = true ∨
          hasOccur tripleMuLit (lowerChars b) = true ∨
          hasOccur quadMuLit (lowerChars b) = true)
      · rw [if_pos h1] at h3
        simp at h3
      · rw [if_neg h1] at h3
        by_cases h2 : ¬ b.isPrefixOf o = true
        · rw [if_pos h2] at h3
          simp at h3
        · rw [if_neg h2] at h3
          have hf : qual_fired b s o = true := h3
          unfold qual_fired at hf
          have hand := (Bool.and_eq_true _ _).mp hf
          exact ⟨b, rfl, not_not.mp h2, beq_iff_eq.mp hand.2⟩
  · intro s o p q hbn
    unfold criterion_quality
    rw [hbn]

/-- C2 witness: the er-criterion precondition implication applied at the concrete
fired pair (`L1_SingleMu5_er2p0`, `L1_SingleMu5_er2p5`). -/
theorem C2_preconditions_witness :
    get_seed_basename exEr2p0 = get_seed_basename exEr2p5 ∧
    erStripped exEr2p0 = erStripped exEr2p5 :=
  C2_criterion_preconditions_amended.2.2.1 exEr2p0 exEr2p5 0 0 (by decide)

/-! ### The eta-restriction criterion (claim C4) -/

theorem er_fired_iff (s o : Chars) :
    er_fired s o = true ↔
      (∃ a c, erValOf s = some a ∧ erValOf o = some c ∧ pyLt a c = true) ∨
      (∃ a, erValOf s = some a ∧ erValOf o = none ∧ pyGt a (PyVal.fin 0) = true) := by
  unfold er_fired
  rcases hs : erValOf s with _ | a <;> rcases ho : erValOf o with _ | c <;> simp

theorem erValOf_none_of_nil {s : Chars} (h : (erFindAll s).length = 0) :
    erValOf s = none := by
  unfold erValOf
  rw [List.length_eq_zero.mp h]
  rfl

/-- C4 amended: a name with two or more er-pattern occurrences makes the pair be
skipped with the all-negative result; for pairs passing the criterion's shared
preconditions — equal basenames and identical residuals after removing the er
token — the criterion fires iff both names carry an explicit eta value and seed's
value is strictly smaller, or seed carries a strictly positive explicit value
while the other carries none.  In particular `L1_SingleMu5er1p5` (er token
attached with no separator, so that removing it leaves identical residuals) is a
backup to `L1_SingleMu5`; `L1_SingleMu5_er2p0` is a backup to
`L1_SingleMu5_er2p5`; and neither direction fires when the explicit values are
equal.  (With an underscore before the token, as in the claim's original
`SingleMu5_er1p5`, the residual keeps the underscore and the pair fails the
residual identity — see the counterexample.) -/
theorem C4_er_criterion_amended :
    (∀ (s o : Chars) (p q : Int),
      1 < (erFindAll s).length ∨ 1 < (erFindAll o).length →
        criterion_er s p o q = (false, none, none)) ∧
    (∀ (s o : Chars) (p q : Int),
      get_seed_basename s = get_seed_basename o →
      (erFindAll s).length ≤ 1 → (erFindAll o).length ≤ 1 →
      erStripped s = erStripped o →
      ((criterion_er s p o q).1 = true ↔
        (∃ a c, erValOf s = some a ∧ erValOf o = some c ∧ pyLt a c = true) ∨
        (∃ a, erValOf s = some a ∧ erValOf o = none ∧ pyGt a (PyVal.fin 0) = true))) ∧
    (criterion_er exEr1p5A 0 exSingleMu5 0).1 = true ∧
    (criterion_er exEr2p0 0 exEr2p5 0).1 = true ∧
    (criterion_er exEr2p0 0 exEr2p0 0).1 = false ∧
    (criterion_er exEr2p5 0 exEr2p5 0).1 = false := by
  refine ⟨?_, ?_, by decide, by decide, by decide, by decide⟩
  · intro s o p q hcnt
    unfold criterion_er
    by_cases h1 : get_seed_basename s ≠ get_seed_basename o
    · rw [if_pos h1]
    · rw [if_neg h1, if_pos hcnt]
  · intro s o p q hbn hs1 ho1 hstr
    unfold criterion_er
    rw [if_neg (not_ne_iff.mpr hbn), if_neg (by omega), if_neg (not_ne_iff.mpr hstr)]
    by_cases h3 : (erFindAll s).length = 0 ∧ (erFindAll o).length = 0
    · rw [if_pos h3]
      have hvs := erValOf_none_of_nil h3.1
      have hvo := erValOf_none_of_nil h3.2
      refine iff_of_false (by simp) ?_
      rintro (⟨a, c, ha, -, -⟩ | ⟨a, ha, -, -⟩) <;> rw [hvs] at ha <;> simp at ha
    · rw [if_neg h3]
      exact er_fired_iff s o

/-- C4 witness: the amended iff applied at the concrete pair
(`L1_SingleMu5_er2p0`, `L1_SingleMu5_er2p5`), preconditions discharged by
computation; its right side is witnessed by the values 2.0 and 2.5. -/
theorem C4_er_witness :
    (criterion_er exEr2p0 0 exEr2p5 0).1 = true :=
  ((C4_er_criterion_amended.2.1 exEr2p0 exEr2p5 0 0 (by decide) (by decide) (by decide)
      (by decide)).mpr
    (Or.inl ⟨PyVal.fin 2, PyVal.fin (Rat.divInt 5 2), by decide, by decide, by decide⟩))

/-! ### The muon-quality criterion (claim C5) -/

theorem criterion_quality_eq_of_basename {s b : Chars} (o : Chars) (p q : Int)
    (hbn : get_seed_basename s = some b) :
    criterion_quality s p o q =
      (if ¬ (hasOccur singleMuLit (lowerChars b) = true ∨
          hasOccur doubleMuLit (lowerChars b) = true ∨
          hasOccur tripleMuLit (lowerChars b) = true ∨
          hasOccur quadMuLit (lowerChars b) = true) then
        (false, none, none)
      else if ¬ b.isPrefixOf o = true then (false, none, none)
      else
        (qual_fired b s o,
          if qual_fired b s o then some o else none,
          if qual_fired b s o then some labelQuality else none)) := by
  unfold criterion_quality
  rw [hbn]

theorem quality_fired_do_further {s o : Chars} {p q : Int}
    (h : (criterion_quality s p o q).1 = true) :
    ∃ b, get_seed_basename s = some b ∧ qual_do_further b s o = true ∧
      qualStrip b s = qualStrip b o := by
  rcases hbn : get_seed_basename s with _ | b
  · unfold criterion_quality at h
    rw [hbn] at h
    simp at h
  · rw [criterion_quality_eq_of_basename o p q hbn] at h
    by_cases h1 : ¬ (hasOccur singleMuLit (lowerChars b) = true ∨
        hasOccur doubleMuLit (lowerChars b) = true ∨
        hasOccur tripleMuLit (lowerChars b) = true ∨
        hasOccur quadMuLit (lowerChars b) = true)
    · rw [if_pos h1] at h
      simp at h
    · rw [if_neg h1] at h
      by_cases h2 : ¬ b.isPrefixOf o = true
      · rw [if_pos h2] at h
        simp at h
      · rw [if_neg h2] at h
        have hf : qual_fired b s o = true := h
        unfold qual_fired at hf
        have hand := (Bool.and_eq_true _ _).mp hf
        exact ⟨b, rfl, hand.1, beq_iff_eq.mp hand.2⟩

/-- C5: the muon-quality criterion.  Whenever it fires, the residuals after
stripping the basename and all three quality tokens are identical; a single-muon
seed with implicit or explicit single quality fires against any same-residual
name that starts with its basename and carries a `_DQ` or `_OQ` token; in
particular `L1_SingleMu7` (implicit single quality) is a backup to
`L1_SingleMu7_OQ`, and `L1_SingleMu7_DQ` is a backup to `L1_SingleMu7_OQ`; and a
seed whose only quality token is `_OQ` is never reported as a backup to
anything. -/
theorem C5_quality_criterion :
    (∀ (s o : Chars) (p q : Int), (criterion_quality s p o q).1 = true →
      ∃ b, get_seed_basename s = some b ∧ qualStrip b s = qualStrip b o) ∧
    (∀ (s o b : Chars) (p q : Int),
      get_seed_basename s = some b →
      hasOccur singleMuLit (lowerChars b) = true →
      qual_isSQ s = true →
      (hasOccur dqTok o = true ∨ hasOccur oqTok o = true) →
      b.isPrefixOf o = true →
      qualStrip b s = qualStrip b o →
      (criterion_quality s p o q).1 = true) ∧
    (criterion_quality exSingleMu7 0 exSingleMu7OQ 0).1 = true ∧
    (criterion_quality exSingleMu7DQ 0 exSingleMu7OQ 0).1 = true ∧
    (∀ (s o : Chars) (p q : Int), hasOccur oqTok s = true →
      hasOccur sqTok s = false → hasOccur dqTok s = false →
      (criterion_quality s p o q).1 = false) := by
  refine ⟨?_, ?_, by decide, by decide, ?_⟩
  · intro s o p q h
    obtain ⟨b, hbn, -, hstrip⟩ := quality_fired_do_further h
    exact ⟨b, hbn, hstrip⟩
  · intro s o b p q hbn hsingle hsq hdqoq hpre hstrip
    rw [criterion_quality_eq_of_basename o p q hbn]
    rw [if_neg (by simp [hsingle]), if_neg (by simp [hpre])]
    show qual_fired b s o = true
    unfold qual_fired qual_do_further
    rw [if_pos hsingle]
    rcases hdqoq with hd | ho2
    · simp [hsq, hd, hstrip]
    · simp [hsq, ho2, hstrip]
  · intro s o p q hoq hsq hdq
    cases hq : (criterion_quality s p o q).1
    · rfl
    · exfalso
      obtain ⟨b, -, hdf, -⟩ := quality_fired_do_further hq
      unfold qual_do_further qual_isSQ qual_isDQ noQualTok at hdf
      simp [hoq, hsq, hdq] at hdf

/-- C5 witness: the positive direction applied at the concrete pair
(`L1_SingleMu7`, `L1_SingleMu7_DQ`), all hypotheses discharged by computation. -/
theorem C5_quality_witness :
    (criterion_quality exSingleMu7 0 exSingleMu7DQ 0).1 = true :=
  C5_quality_criterion.2.1 exSingleMu7 exSingleMu7DQ ("L1_SingleMu".toList) 0 0
    (by decide) (by decide) (by decide) (Or.inl (by decide)) (by decide) (by decide)

/-! ### The isolation criterion (claim C6) -/

theorem isoMatchAt_token {l m r : Chars} (h : isoMatchAt l = some (m, r)) :
    m = isoLit ∨ m = looseIsoLit := by
  unfold isoMatchAt at h
  split_ifs at h with h1 h2
  · exact Or.inl (by cases h; rfl)
  · exact Or.inr (by cases h; rfl)

theorem scanGo_iso_tokens :
    ∀ (fuel : Nat) (l : Chars), ∀ m ∈ scanGo isoMatchAt fuel l,
      m = isoLit ∨ m = looseIsoLit := by
  intro fuel
  induction fuel with
  | zero =>
    intro l m hm
    cases l <;> simp [scanGo] at hm
  | succ n ih =>
    intro l m hm
    cases l with
    | nil => simp [scanGo] at hm
    | cons c rest =>
      rw [scanGo] at hm
      rcases hf : isoMatchAt (c :: rest) with _ | ⟨mm, r⟩
      · rw [hf] at hm
        exact ih rest m hm
      · rw [hf] at hm
        rcases List.mem_cons.mp hm with h1 | h2
        · subst h1
          exact isoMatchAt_token hf
        · exact ih r m h2

theorem isoStrOf_cases (s : Chars) :
    isoStrOf s = none ∨ isoStrOf s = some isoLit ∨ isoStrOf s = some looseIsoLit := by
  unfold isoStrOf
  rcases hh : (isoFindAll s).head? with _ | m
  · exact Or.inl rfl
  · have hmem : m ∈ isoFindAll s := List.mem_of_mem_head? hh
    rcases scanGo_iso_tokens _ _ m hmem with h1 | h2
    · exact Or.inr (Or.inl (by rw [h1]))
    · exact Or.inr (Or.inr (by rw [h2]))

theorem iso_fired_iff_rank (s o : Chars) :
    iso_fired s o = true ↔ isoRank (isoStrOf s) < isoRank (isoStrOf o) := by
  unfold iso_fired
  rcases isoStrOf_cases s with hs | hs | hs <;>
    rcases isoStrOf_cases o with ho | ho | ho <;>
      rw [hs, ho] <;> decide

theorem isoStrOf_none_of_nil {s : Chars} (h : (isoFindAll s).length = 0) :
    isoStrOf s = none := by
  unfold isoStrOf
  rw [List.length_eq_zero.mp h]
  rfl

/-- C6 amended: the isolation criterion orders tokens tightest to loosest
`Iso` < `LooseIso` < no token, and for pairs passing its shared preconditions —
equal basenames, at most one token per name, and identical residuals after
removing the token and any trailing separator — it fires iff seed's rank is
strictly tighter.  The claim's example names put the token before the threshold
digits, where it is absorbed into the basename and the pair is rejected (see the
counterexample); with the token at the end of the name the claimed chain holds
as two independent pairwise facts: `L1_SingleMu5_Iso` is a backup to
`L1_SingleMu5_LooseIso`, which is a backup to `L1_SingleMu5` (and the reverse
directions do not fire). -/
theorem C6_isolation_criterion_amended :
    (∀ (s o : Chars) (p q : Int),
      get_seed_basename s = get_seed_basename o →
      (isoFindAll s).length ≤ 1 → (isoFindAll o).length ≤ 1 →
      isoStripped s = isoStripped o →
      ((criterion_isolation s p o q).1 = true ↔
        isoRank (isoStrOf s) < isoRank (isoStrOf o))) ∧
    (criterion_isolation exIsoSuf 0 exLooseIsoSuf 0).1 = true ∧
    (criterion_isolation exLooseIsoSuf 0 exSingleMu5 0).1 = true ∧
    (criterion_isolation exIsoSuf 0 exSingleMu5 0).1 = true ∧
    (criterion_isolation exLooseIsoSuf 0 exIsoSuf 0).1 = false ∧
    (criterion_isolation exSingleMu5 0 exLooseIsoSuf 0).1 = false := by
  refine ⟨?_, by decide, by decide, by decide, by decide, by decide⟩
  intro s o p q hbn hs1 ho1 hstr
  unfold criterion_isolation
  rw [if_neg (not_ne_iff.mpr hbn), if_neg (by omega), if_neg (not_ne_iff.mpr hstr)]
  by_cases h3 : (isoFindAll s).length = 0 ∧ (isoFindAll o).length = 0
  · rw [if_pos h3]
    rw [isoStrOf_none_of_nil h3.1, isoStrOf_none_of_nil h3.2]
    simp [isoRank]
  · rw [if_neg h3]
    exact iso_fired_iff_rank s o

/-- C6 witness: the amended iff applied at the concrete pair
(`L1_SingleMu5_Iso`, `L1_SingleMu5_LooseIso`), preconditions discharged by
computation; the rank inequality 0 < 1 is decided. -/
theorem C6_isolation_witness :
    (criterion_isolation exIsoSuf 0 exLooseIsoSuf 0).1 = true :=
  ((C6_isolation_criterion_amended.1 exIsoSuf exLooseIsoSuf 0 0 (by decide) (by decide)
      (by decide) (by decide)).mpr (by decide))

/-! ### The numeric decoder (claim C9) -/

theorem pySub_fin (a c : ℚ) : pySub (.fin a) (.fin c) = .fin (a - c) := by
  show PyVal.fin (Rat.divInt (a.num * (c.den : Int) - c.num * (a.den : Int))
    ((a.den : Int) * (c.den : Int))) = PyVal.fin (a - c)
  congr 1
  rw [Rat.divInt_eq_div]
  have ha : ((a.den : ℚ)) ≠ 0 := by
    exact_mod_cast a.den_nz
  have hc : ((c.den : ℚ)) ≠ 0 := by
    exact_mod_cast c.den_nz
  field_simp
  push_cast
  rw [show ((a.num : ℚ)) = a * a.den from by field_simp [Rat.num_div_den],
    show ((c.num : ℚ)) = c * c.den from by field_simp [Rat.num_div_den]]
  ring

theorem digit_toNat {c : Char} (h : c.isDigit = true) : 48 ≤ c.toNat ∧ c.toNat ≤ 57 := by
  simp [Char.isDigit, UInt32.le_def, Fin.le_def] at h
  exact h

theorem toLower_digit {c : Char} (h : c.isDigit = true) : c.toLower = c := by
  have hb := digit_toNat h
  simp [Char.toLower]
  intro h2
  omega

theorem digit_not_ws {c : Char} (h : c.isDigit = true) : c.isWhitespace = false := by
  have hb := digit_toNat h
  simp [Char.isWhitespace]
  refine ⟨⟨⟨?_, ?_⟩, ?_⟩, ?_⟩ <;> intro h2 <;> subst h2 <;> simp_all

theorem digit_ne {c : Char} (h : c.isDigit = true) (d : Char)
    (hd : d.toNat < 48 ∨ 57 < d.toNat) : c ≠ d := by
  have hb := digit_toNat h
  intro h2
  subst h2
  omega

theorem map_self_of {α : Type} {f : α → α} :
    ∀ {l : List α}, (∀ x ∈ l, f x = x) → l.map f = l := by
  intro l h
  induction l with
  | nil => rfl
  | cons a t ih =>
    rw [List.map_cons, h a (List.mem_cons_self a t),
      ih (fun x hx => h x (List.mem_cons_of_mem _ hx))]

theorem dropWhile_eq_self_of {p : Char → Bool} {l : Chars}
    (h : ∀ x ∈ l, p x = false) : l.dropWhile p = l := by
  cases l with
  | nil => rfl
  | cons c t =>
    rw [List.dropWhile_cons, if_neg (by simp [h c (List.mem_cons_self c t)])]

theorem stripWs_eq_self {l : Chars} (h : ∀ x ∈ l, x.isWhitespace = false) :
    stripWs l = l := by
  unfold stripWs
  rw [dropWhile_eq_self_of h,
    dropWhile_eq_self_of (fun x hx => h x (List.mem_reverse.mp hx)), List.reverse_reverse]

theorem takeWhile_append_eq {p : Char → Bool} {a t : Chars} {c : Char}
    (ha : ∀ x ∈ a, p x = true) (hc : p c = false) :
    (a ++ c :: t).takeWhile p = a := by
  induction a with
  | nil => rw [List.nil_append, List.takeWhile_cons, if_neg (by simp [hc])]
  | cons x a2 ih =>
    rw [List.cons_append, List.takeWhile_cons, if_pos (ha x (List.mem_cons_self x a2)),
      ih (fun y hy => ha y (List.mem_cons_of_mem _ hy))]

theorem splitSign_cons_digit {c : Char} (t : Chars) (hc : c.isDigit = true) :
    splitSign (c :: t) = (false, c :: t) := by
  unfold splitSign
  rw [if_neg (by simp [digit_ne hc '+' (by decide)]),
    if_neg (by simp [digit_ne hc '-' (by decide)])]

theorem lowerChars_cons_digit_ne {c : Char} {t w : Chars} {x : Char}
    (hc : c.isDigit = true) (hx : x.toNat < 48 ∨ 57 < x.toNat) :
    lowerChars (c :: t) ≠ x :: w := by
  intro hh
  rw [show lowerChars (c :: t) = c.toLower :: lowerChars t from rfl, toLower_digit hc] at hh
  injection hh with h1 h2
  exact digit_ne hc x hx h1

theorem ratOfParts_int (l : Chars) : ratOfParts false l [] 0 = ((digitsToNat l : ℚ)) := by
  unfold ratOfParts
  rw [if_pos (le_refl (0 : Int))]
  rw [Rat.divInt_eq_div]
  push_cast [digitsToNat]
  norm_num

theorem ratOfParts_frac (a bl : Chars) :
    ratOfParts false a bl 0 =
      (digitsToNat a : ℚ) + (digitsToNat bl : ℚ) / (10 : ℚ) ^ bl.length := by
  unfold ratOfParts
  rw [if_pos (le_refl (0 : Int))]
  rw [Rat.divInt_eq_div]
  push_cast
  have h10 : ((10 : ℚ)) ^ bl.length ≠ 0 := by positivity
  field_simp

theorem convert_digits {l : Chars} (hne : l ≠ []) (hd : ∀ x ∈ l, x.isDigit = true) :
    convert_to_float l = some (PyVal.fin ((digitsToNat l : ℚ))) := by
  obtain ⟨c, t, rfl⟩ : ∃ c t, l = c :: t := by
    cases l with
    | nil => exact absurd rfl hne
    | cons c t => exact ⟨c, t, rfl⟩
  have hc := hd c (List.mem_cons_self c t)
  have hfil : (c :: t).filter (fun x => !(x == '_')) = c :: t :=
    List.filter_eq_self.mpr (fun x hx => by simp [digit_ne (hd x hx) '_' (by decide)])
  have hmap : (c :: t).map (fun x => if x = 'p' then '.' else x) = c :: t :=
    map_self_of (fun x hx => if_neg (digit_ne (hd x hx) 'p' (by decide)))
  unfold convert_to_float
  rw [hfil, hmap]
  unfold pyFloat?
  rw [stripWs_eq_self (fun x hx => digit_not_ws (hd x hx)), splitSign_cons_digit t hc]
  rw [if_neg ?hinf, if_neg ?hnan]
  case hinf =>
    rintro (hh | hh)
    · exact lowerChars_cons_digit_ne hc (by decide) hh
    · exact lowerChars_cons_digit_ne hc (by decide) hh
  case hnan => exact lowerChars_cons_digit_ne hc (by decide)
  show parseNumber false (c :: t) = _
  unfold parseNumber
  rw [List.takeWhile_eq_self_iff.mpr hd, List.drop_length]
  rw [if_neg (by simp), if_neg (by simp)]
  show some (PyVal.fin (ratOfParts false (c :: t) [] 0)) = _
  rw [ratOfParts_int]

theorem convert_digits_p {a bl : Chars} (hna : a ≠ []) (hnb : bl ≠ [])
    (hda : ∀ x ∈ a, x.isDigit = true) (hdb : ∀ x ∈ bl, x.isDigit = true) :
    convert_to_float (a ++ 'p' :: bl) =
      some (PyVal.fin ((digitsToNat a : ℚ) + (digitsToNat bl : ℚ) / (10 : ℚ) ^ bl.length)) := by
  have hfil : (a ++ 'p' :: bl).filter (fun x => !(x == '_')) = a ++ 'p' :: bl := by
    refine List.filter_eq_self.mpr (fun x hx => ?_)
    rcases List.mem_append.mp hx with h1 | h2
    · simp [digit_ne (hda x h1) '_' (by decide)]
    · rcases List.mem_cons.mp h2 with h3 | h4
      · subst h3
        decide
      · simp [digit_ne (hdb x h4) '_' (by decide)]
  have hmap : (a ++ 'p' :: bl).map (fun x => if x = 'p' then '.' else x) = a ++ '.' :: bl := by
    rw [List.map_append, List.map_cons,
      map_self_of (fun x hx => if_neg (digit_ne (hda x hx) 'p' (by decide))),
      map_self_of (fun x hx => if_neg (digit_ne (hdb x hx) 'p' (by decide))), if_pos rfl]
  unfold convert_to_float
  rw [hfil, hmap]
  have hws : ∀ x ∈ a ++ '.' :: bl, x.isWhitespace = false := by
    intro x hx
    rcases List.mem_append.mp hx with h1 | h2
    · exact digit_not_ws (hda x h1)
    · rcases List.mem_cons.mp h2 with h3 | h4
      · subst h3
        decide
      · exact digit_not_ws (hdb x h4)
  obtain ⟨c, a2, rfl⟩ : ∃ c a2, a = c :: a2 := by
    cases a with
    | nil => exact absurd rfl hna
    | cons c a2 => exact ⟨c, a2, rfl⟩
  have hc := hda c (List.mem_cons_self c a2)
  have hda2 : ∀ x ∈ a2, x.isDigit = true := fun x hx => hda x (List.mem_cons_of_mem _ hx)
  unfold pyFloat?
  rw [stripWs_eq_self hws, List.cons_append, splitSign_cons_digit _ hc]
  rw [if_neg ?hinf, if_neg ?hnan]
  case hinf =>
    rintro (hh | hh)
    · exact lowerChars_cons_digit_ne hc (by decide) hh
    · exact lowerChars_cons_digit_ne hc (by decide) hh
  case hnan => exact lowerChars_cons_digit_ne hc (by decide)
  show parseNumber false (c :: (a2 ++ '.' :: bl)) = _
  have htake : (c :: (a2 ++ '.' :: bl)).takeWhile Char.isDigit = c :: a2 := by
    rw [← List.cons_append]
    exact takeWhile_append_eq hda (by decide)
  have hdrop : (c :: (a2 ++ '.' :: bl)).drop (c :: a2).length = '.' :: bl := by
    rw [← List.cons_append]
    exact List.drop_left _ _
  unfold parseNumber
  rw [htake, hdrop]
  rw [if_pos (show (('.' :: bl).head? = some '.') from rfl)]
  have hfrac : fracPart ('.' :: bl) = bl := by
    unfold fracPart
    rw [List.tail_cons, List.takeWhile_eq_self_iff.mpr hdb]
  rw [hfrac]
  rw [if_neg (by simp), List.tail_cons, List.drop_length]
  show some (PyVal.fin (ratOfParts false (c :: a2) bl 0)) = _
  rw [ratOfParts_frac]

theorem optGt_none_left (x : Option PyVal) : optGt none x = false := by
  cases x <;> rfl

theorem optGt_none_right (x : Option PyVal) : optGt x none = false := by
  cases x <;> rfl

theorem optGe_none_left (x : Option PyVal) : optGe none x = false := by
  cases x <;> rfl

theorem optGe_none_right (x : Option PyVal) : optGe x none = false := by
  cases x <;> rfl

theorem er_fired_none_seed {s o : Chars} (h : erValOf s = none) :
    er_fired s o = false := by
  unfold er_fired
  rw [h]
  rcases ho : erValOf o with _ | c <;> rfl

theorem er_fired_none_other {s o : Chars} (h : erValOf o = none) :
    er_fired s o = true ↔ ∃ a, erValOf s = some a ∧ pyGt a (PyVal.fin 0) = true := by
  unfold er_fired
  rw [h]
  rcases hs : erValOf s with _ | a <;> simp

theorem dRmax_fired_none_seed {s o : Chars} (h : dRmaxValOf s = none) :
    dRmax_fired s o = false := by
  unfold dRmax_fired
  rw [h]
  rcases ho : dRmaxValOf o with _ | c <;> rfl

theorem dRmin_fired_none_seed {s o : Chars} (h : dRminValOf s = none) :
    dRmin_fired s o = false := by
  unfold dRmin_fired
  rw [h]
  rcases ho : dRminValOf o with _ | c <;> rfl

theorem mass_fired_none_window {s o : Chars} (h : massRangeOpt s = none) :
    mass_fired s o = false := by
  unfold mass_fired
  rw [h]
  rcases ho : massRangeOpt o with _ | ⟨_ | c0, _ | c1⟩ <;> rfl

/-- C9 counterexample: the claim asserts the decoder returns the null
parse-failure signal on every input that is not of the form `<digits>` or
`<digits>p<digits>`, but `convert_to_float` decodes `1.2` — an input with a real
decimal point, which is neither form — to 1.2 without failing (the source's own
docstring even lists `'1.2'` as an allowed format). -/
theorem C9_convert_decimal_cex :
    convert_to_float ['1', '.', '2'] = some (PyVal.fin (Rat.divInt 6 5)) ∧
    convert_to_float ['1', '.', '2'] ≠ none := by
  constructor
  · decide
  · decide

/-- C9 amended: the decoder is a total function (no exception path exists in the
model); it decodes every `<digits>` input to its decimal value and every
`<digits>p<digits>` input to the corresponding decimal fraction; stray
underscores are tolerated (removing them first never changes the result); it
also decodes any other string accepted by Python's float grammar after the
underscore removal and `p`-to-`.` substitution (for example `1.2`), and returns
the null signal on the rest (for example letters-only inputs).  Downstream
comparison logic treats a null operand as absent, never as smaller: the pT
threshold comparisons return false whenever either operand is null; the
eta-restriction, dR and mass-window candidate conditions never fire for a seed
whose decoded value (respectively window) is null; and when the other side's
eta value is null, the er condition fires exactly through the explicit
strictly-positive rule, never through an order comparison against the null. -/
theorem C9_convert_to_float_amended :
    (∀ l : Chars, l ≠ [] → (∀ x ∈ l, x.isDigit = true) →
      convert_to_float l = some (PyVal.fin ((digitsToNat l : ℚ)))) ∧
    (∀ a bl : Chars, a ≠ [] → bl ≠ [] → (∀ x ∈ a, x.isDigit = true) →
      (∀ x ∈ bl, x.isDigit = true) →
      convert_to_float (a ++ 'p' :: bl) =
        some (PyVal.fin ((digitsToNat a : ℚ) +
          (digitsToNat bl : ℚ) / (10 : ℚ) ^ bl.length))) ∧
    (∀ l : Chars, convert_to_float l = convert_to_float (l.filter (fun c => !(c == '_')))) ∧
    convert_to_float ['a', 'b', 'c'] = none ∧
    (∀ x : Option PyVal, optGt none x = false ∧ optGt x none = false ∧
      optGe none x = false ∧ optGe x none = false) ∧
    (∀ s o : Chars, erValOf s = none → er_fired s o = false) ∧
    (∀ s o : Chars, erValOf o = none →
      (er_fired s o = true ↔ ∃ a, erValOf s = some a ∧ pyGt a (PyVal.fin 0) = true)) ∧
    (∀ s o : Chars, dRmaxValOf s = none → dRmax_fired s o = false) ∧
    (∀ s o : Chars, dRminValOf s = none → dRmin_fired s o = false) ∧
    (∀ s o : Chars, massRangeOpt s = none → mass_fired s o = false) := by
  refine ⟨?_, ?_, ?_, by decide, ?_, ?_, ?_, ?_, ?_, ?_⟩
  · intro l hne hd
    exact convert_digits hne hd
  · intro a bl hna hnb hda hdb
    exact convert_digits_p hna hnb hda hdb
  · intro l
    unfold convert_to_float
    rw [List.filter_eq_self.mpr (fun c hc => (List.mem_filter.mp hc).2)]
  · intro x
    exact ⟨optGt_none_left x, optGt_none_right x, optGe_none_left x, optGe_none_right x⟩
  · intro s o h
    exact er_fired_none_seed h
  · intro s o h
    exact er_fired_none_other h
  · intro s o h
    exact dRmax_fired_none_seed h
  · intro s o h
    exact dRmin_fired_none_seed h
  · intro s o h
    exact mass_fired_none_window h

/-- C9 witness: the digits-p-digits decoding applied at the concrete input
`6p5`, and the null-treated-as-absent part applied at the concrete pair
(`L1_SingleMu5`, `L1_SingleMu5_er2p5`) whose seed has no eta value; all
hypotheses discharged by computation. -/
theorem C9_convert_witness :
    convert_to_float ['6', 'p', '5'] =
      some (PyVal.fin ((digitsToNat ['6'] : ℚ) +
        (digitsToNat ['5'] : ℚ) / (10 : ℚ) ^ (['5'] : Chars).length)) ∧
    er_fired exSingleMu5 exEr2p5 = false :=
  ⟨C9_convert_to_float_amended.2.1 ['6'] ['5'] (by decide) (by decide) (by decide) (by decide),
    C9_convert_to_float_amended.2.2.2.2.2.1 exSingleMu5 exEr2p5 (by decide)⟩

end PSTools
